import Mathlib

/-!
# MQ Hammer: start-up path and reference-set lookup

A shallow embedding of `main.go` (the `PreRunE` and `RunE` closures of `rootCmd`)
and of the reference set that `ref_test.go` exercises.

Conventions.
* A Go `string` is a Lean `String`; `strings.Contains` is embedded on the character
  list of the string.
* The package-level flag variables of `main.go` are the fields of `Flags`; a closure
  that assigns to them returns the updated record.
* A Go `int` is an `Int`: the code only compares and copies `nAgents`, no arithmetic
  is performed on it, so no wrap-around can occur.
* A Go `error` is a `GoError`: it records which constructor call produced the value.
* The calls to `logrus` and the assignment of the paho loggers (`verbose`, `verboser`)
  only write to the log and are not part of the embedding.
-/

namespace MqHammer

/-! ## Go library functions used by `main.go` -/

/-- Go `strings.Contains` on character lists: `substr` occurs in `s` as a contiguous block. -/
def containsChars : List Char → List Char → Bool
  | [], substr => substr.isEmpty
  | c :: cs, substr => substr.isPrefixOf (c :: cs) || containsChars cs substr

/-- Go `strings.Contains(s, substr)`. -/
def stringsContains (s substr : String) : Bool :=
  containsChars s.data substr.data

/-- A Go `error` value, by the call that made it: `errors.New(msg)`,
`fmt.Errorf(format, args...)` with integer arguments, or a value handed back by a
callee of `RunE` (a loader, `os.OpenFile`, the exporter), kept as its message. -/
inductive GoError where
  | errorsNew (msg : String)
  | fmtErrorf (format : String) (args : List Int)
  | returned (msg : String)
  deriving DecidableEq

/-! ## The flag variables -/

/-- The package-level variables that `init` binds to the command-line flags
(`main.go` lines 36-51). `sleep` is a `time.Duration`, a number of nanoseconds. -/
structure Flags where
  brokerAddr : String
  scenarioFile : String
  referenceFile : String
  nAgents : Int
  sleep : Int
  clientIDPrefix : String
  agentLogFormat : String
  credentialsFile : String
  insecure : Bool
  disableMqttTLS : Bool
  prometheusSrv : String
  nssKeyLogFile : String
  verbose : Bool
  verboser : Bool
  username : String
  password : String
  deriving DecidableEq

/-! ## `rootCmd.PreRunE` -/

/-- The closure `rootCmd.PreRunE` (`main.go` lines 103-127): the returned error
(`none` for `nil`) and the flag variables as the closure leaves them. -/
def PreRunE (g : Flags) : Option GoError × Flags :=
  if g.brokerAddr = "" then
    (some (.errorsNew "broker cannot be empty"), g)
  else
    -- plug in default ports if unspecified
    let g1 : Flags :=
      if !stringsContains g.brokerAddr ":" then
        if g.disableMqttTLS then
          { g with brokerAddr := g.brokerAddr ++ ":1883" }
        else
          { g with brokerAddr := g.brokerAddr ++ ":8883" }
      else g
    let g2 : Flags :=
      if stringsContains g1.brokerAddr "iot.eclipse.org" && decide (g1.nAgents > 4) then
        { g1 with nAgents := 4 }
      else g1
    if g2.scenarioFile = "" then
      (some (.errorsNew "scenario cannot be empty"), g2)
    else
      (none, g2)

/-! ## `rootCmd.RunE` -/

/-- The functions `RunE` calls whose bodies are outside `main.go`, taken as
parameters. Each returns its value or the message of its error. `σ` is the scenario
type, `ρ` the `ReferenceSet`, `κ` the credentials read from a file, `ω` the opened
key-log file and `μ` the Prometheus metrics handler. -/
structure Callees (σ ρ κ ω μ : Type) where
  newScenarioFromFile : String → Except String σ
  newReferenceSetFromFile : String → Except String ρ
  newMqttCredentialsFromFile : String → Except String κ
  Size : κ → Int
  osOpenFile : String → Except String ω
  newPrometheusMetrics : String → Except String μ

/-- The interface `MqttCredentials` as `RunE` fills it: the literal `&fixedCreds{...}`
or the value read from the credentials file. -/
inductive MqttCredentials (κ : Type) where
  | fixedCreds (clientID username password : String)
  | fromFile (fcreds : κ)
  deriving DecidableEq

/-- The fields of `tls.Config` that `RunE` sets. -/
structure TlsConfig (ω : Type) where
  InsecureSkipVerify : Bool
  KeyLogWriter : Option ω
  deriving DecidableEq

/-- An element of `metricsHandlers`. -/
inductive MetricsHandler (μ : Type) where
  | consoleMetrics
  | prometheusMetrics (pm : μ)
  deriving DecidableEq

/-- The calls `RunE` makes that act on the outside world, in the order it makes them.
The event funnel handed to `newAgentController` is given by the handlers it was made
of. -/
inductive Effect (σ ρ κ ω μ : Type) where
  | newScenarioFromFile (filename : String)
  | newReferenceSetFromFile (filename : String)
  | newMqttCredentialsFromFile (filename : String)
  | osOpenFile (name : String)
  | newPrometheusMetrics (addr : String)
  | newChanneledFunnel (handlers : List (MetricsHandler μ))
  | goProcess
  | newAgentController (brokerAddr : String) (tlsCfg : TlsConfig ω) (nAgents : Int)
      (agentLogFormat : String) (sleep : Int) (creds : MqttCredentials κ)
      (eventFunnel : List (MetricsHandler μ)) (refSet : Option ρ) (scenario : σ)
  | setDisableMqttTLS
  | Control
  deriving DecidableEq

section RunE

variable {σ ρ κ ω μ : Type}

/-- The effect creates the event funnel. -/
def Effect.isFunnel : Effect σ ρ κ ω μ → Bool
  | .newChanneledFunnel _ => true
  | _ => false

/-- The effect creates the agent controller. -/
def Effect.isController : Effect σ ρ κ ω μ → Bool
  | .newAgentController _ _ _ _ _ _ _ _ _ => true
  | _ => false

/-- The effect is the call `ctl.Control()`. -/
def Effect.isControl : Effect σ ρ κ ω μ → Bool
  | .Control => true
  | _ => false

/-- The effect is a call that loads or opens a start-up resource; none of these
creates the funnel or the controller or runs the agents. -/
def Effect.isStartup : Effect σ ρ κ ω μ → Bool
  | .newScenarioFromFile _ => true
  | .newReferenceSetFromFile _ => true
  | .newMqttCredentialsFromFile _ => true
  | .osOpenFile _ => true
  | .newPrometheusMetrics _ => true
  | _ => false

/-- The block "load optional reference data set" of `RunE` (`main.go` lines 150-158):
the value of `refSet` (`none` for the nil interface) or the error returned, and the
calls made. -/
def loadReference (w : Callees σ ρ κ ω μ) (g : Flags) :
    Except GoError (Option ρ) × List (Effect σ ρ κ ω μ) :=
  if g.referenceFile ≠ "" then
    match w.newReferenceSetFromFile g.referenceFile with
    | .error err => (.error (.returned err), [.newReferenceSetFromFile g.referenceFile])
    | .ok refSet => (.ok (some refSet), [.newReferenceSetFromFile g.referenceFile])
  else
    (.ok none, [])

/-- The block "mqtt creds from file" of `RunE` (`main.go` lines 160-173): the value of
`creds` or the error returned, and the calls made. -/
def selectCredentials (w : Callees σ ρ κ ω μ) (g : Flags) :
    Except GoError (MqttCredentials κ) × List (Effect σ ρ κ ω μ) :=
  let creds : MqttCredentials κ := .fixedCreds g.clientIDPrefix g.username g.password
  if g.credentialsFile ≠ "" then
    match w.newMqttCredentialsFromFile g.credentialsFile with
    | .error err => (.error (.returned err), [.newMqttCredentialsFromFile g.credentialsFile])
    | .ok fcreds =>
      if g.nAgents > w.Size fcreds then
        (.error (.fmtErrorf "cannot create %d agents with only %d tokens provided"
            [g.nAgents, w.Size fcreds]),
          [.newMqttCredentialsFromFile g.credentialsFile])
      else
        (.ok (.fromFile fcreds), [.newMqttCredentialsFromFile g.credentialsFile])
  else
    (.ok creds, [])

/-- The block "tls config shared between agents" of `RunE` (`main.go` lines 175-184):
the value of `tlsCfg` or the error returned, and the calls made. -/
def sharedTlsConfig (w : Callees σ ρ κ ω μ) (g : Flags) :
    Except GoError (TlsConfig ω) × List (Effect σ ρ κ ω μ) :=
  let tlsCfg : TlsConfig ω := { InsecureSkipVerify := g.insecure, KeyLogWriter := none }
  if g.nssKeyLogFile ≠ "" then
    match w.osOpenFile g.nssKeyLogFile with
    | .error err => (.error (.returned err), [.osOpenFile g.nssKeyLogFile])
    | .ok wr => (.ok { tlsCfg with KeyLogWriter := some wr }, [.osOpenFile g.nssKeyLogFile])
  else
    (.ok tlsCfg, [])

/-- The block that fills `metricsHandlers` in `RunE` (`main.go` lines 186-196): its
value or the error returned, and the calls made. -/
def collectMetricsHandlers (w : Callees σ ρ κ ω μ) (g : Flags) :
    Except GoError (List (MetricsHandler μ)) × List (Effect σ ρ κ ω μ) :=
  let metricsHandlers : List (MetricsHandler μ) := [.consoleMetrics]
  if g.prometheusSrv ≠ "" then
    match w.newPrometheusMetrics g.prometheusSrv with
    | .error err => (.error (.returned err), [.newPrometheusMetrics g.prometheusSrv])
    | .ok pm => (.ok (metricsHandlers ++ [.prometheusMetrics pm]),
        [.newPrometheusMetrics g.prometheusSrv])
  else
    (.ok metricsHandlers, [])

/-- The closure `rootCmd.RunE` (`main.go` lines 128-213): the returned error (`none` for
`nil`) and the calls made, in order. The final `return nil` is reached when
`ctl.Control()` returns; whether it does is decided by the agent controller, which is
not part of `main.go`. -/
def RunE (w : Callees σ ρ κ ω μ) (g : Flags) :
    Option GoError × List (Effect σ ρ κ ω μ) :=
  -- load scenario
  let t0 : List (Effect σ ρ κ ω μ) := [.newScenarioFromFile g.scenarioFile]
  match w.newScenarioFromFile g.scenarioFile with
  | .error err => (some (.returned err), t0)
  | .ok scenario =>
    match loadReference w g with
    | (.error err, t1) => (some err, t0 ++ t1)
    | (.ok refSet, t1) =>
      match selectCredentials w g with
      | (.error err, t2) => (some err, t0 ++ t1 ++ t2)
      | (.ok creds, t2) =>
        match sharedTlsConfig w g with
        | (.error err, t3) => (some err, t0 ++ t1 ++ t2 ++ t3)
        | (.ok tlsCfg, t3) =>
          match collectMetricsHandlers w g with
          | (.error err, t4) => (some err, t0 ++ t1 ++ t2 ++ t3 ++ t4)
          | (.ok metricsHandlers, t4) =>
            -- start event funnel processing, create agent controller, run!
            (none, t0 ++ t1 ++ t2 ++ t3 ++ t4 ++
              [.newChanneledFunnel metricsHandlers, .goProcess,
               .newAgentController g.brokerAddr tlsCfg g.nAgents g.agentLogFormat g.sleep
                 creds metricsHandlers refSet scenario] ++
              (if g.disableMqttTLS then [.setDisableMqttTLS] else []) ++
              [.Control])

/-- The order in which cobra runs the two closures of `rootCmd`: `PreRunE` first, and
`RunE`, on the flag variables as `PreRunE` left them, only when `PreRunE` returned
`nil`. -/
def rootCmdExecute (w : Callees σ ρ κ ω μ) (g : Flags) :
    Option GoError × List (Effect σ ρ κ ω μ) :=
  match PreRunE g with
  | (some err, _) => (some err, [])
  | (none, g1) => RunE w g1

end RunE

/-! ## The reference set

`ref_test.go` tests `newReferenceSetFromReader` and `GetMessages`; the file that
defines them is not among the sources, so both are modelled from the specification
(sections 3, 4.2 and 6). -/

/-- A Go `[]byte`: the list of the byte values. -/
abbrev Payload := List Nat

/-- A Go `map[string][]byte`: the entries, no key twice. -/
abbrev Messages := List (String × Payload)

/-- The Go map read `m[k]` with its presence flag. -/
def mapIndex {β : Type} : List (String × β) → String → Option β
  | [], _ => none
  | (k1, v) :: rest, k => if k1 = k then some v else mapIndex rest k

/-- The Go map assignment `m[k] = v`: the entry of `k` is replaced, or added. -/
def mapAssign {β : Type} : List (String × β) → String → β → List (String × β)
  | [], k, v => [(k, v)]
  | (k1, v1) :: rest, k, v =>
    if k1 = k then (k, v) :: rest else (k1, v1) :: mapAssign rest k v

/-- The value of a character in the standard base64 alphabet (RFC 4648, table 1). -/
def base64Value (c : Char) : Option Nat :=
  if 65 ≤ c.toNat ∧ c.toNat ≤ 90 then some (c.toNat - 65)
  else if 97 ≤ c.toNat ∧ c.toNat ≤ 122 then some (c.toNat - 97 + 26)
  else if 48 ≤ c.toNat ∧ c.toNat ≤ 57 then some (c.toNat - 48 + 52)
  else if c = '+' then some 62
  else if c = '/' then some 63
  else none

/-- Modelled from the spec: the decoder of a "base64-encoded payload" (section 6), which
is not among the sources. Standard alphabet with `=` padding, four characters for
three bytes; `none` when the text is not base64. -/
def base64DecodeChars : List Char → Option (List Nat)
  | [] => some []
  | [a, b, c, d] =>
    match base64Value a, base64Value b with
    | some x, some y =>
      if c = '=' then
        if d = '=' then some [(x * 4 + y / 16) % 256] else none
      else
        match base64Value c with
        | none => none
        | some z =>
          if d = '=' then some [(x * 4 + y / 16) % 256, (y * 16 + z / 4) % 256]
          else
            match base64Value d with
            | none => none
            | some u =>
              some [(x * 4 + y / 16) % 256, (y * 16 + z / 4) % 256, (z * 64 + u) % 256]
    | _, _ => none
  | a :: b :: c :: d :: rest =>
    match base64Value a, base64Value b, base64Value c, base64Value d,
        base64DecodeChars rest with
    | some x, some y, some z, some u, some bytes =>
      some ((x * 4 + y / 16) % 256 :: (y * 16 + z / 4) % 256 :: (z * 64 + u) % 256 :: bytes)
    | _, _, _, _, _ => none
  | _ => none

/-- The base64 decoding of a JSON string value. -/
def base64Decode (text : String) : Option Payload :=
  base64DecodeChars text.data

/-- The parsed reference file: the members of the JSON object, in file order, each a
topic and the base64 text of its payload. -/
abbrev Snapshot := List (String × String)

/-- The text a snapshot gives for a topic; of two members with one name the later
counts, as in Go's JSON decoding into a map. -/
def snapshotValue : Snapshot → String → Option String
  | [], _ => none
  | (k, text) :: rest, topic =>
    match snapshotValue rest topic with
    | some later => some later
    | none => if k = topic then some text else none

/-- The payload a snapshot gives for a topic: the base64 decoding of its text. -/
def snapshotPayload (snap : Snapshot) (topic : String) : Option Payload :=
  (snapshotValue snap topic).bind base64Decode

/-- Modelled from the spec: the `ReferenceSet` of section 3, whose declaration is not
among the sources: "a mapping from exact topic string to a raw payload", with "a
memoization cache mapping a lookup key (exact topic or wildcard filter string) to its
previously computed result set". -/
structure referenceSet where
  data : Messages
  cache : List (String × Messages)
  deriving DecidableEq

/-- The members of a snapshot decoded one by one into the map `m`. -/
def decodeMembers : Snapshot → Messages → Except String Messages
  | [], m => .ok m
  | (topic, text) :: rest, m =>
    match base64Decode text with
    | none => .error "illegal base64 data"
    | some payload => decodeMembers rest (mapAssign m topic payload)

/-- Modelled from the spec: `newReferenceSetFromReader`, which `ref_test.go` calls and
whose body is not among the sources: `Load(source) -> ReferenceSet | ParseError` of
section 4.2 on "a flat mapping from exact MQTT topic string to a base64-encoded
payload" (section 6). The reader's JSON text is taken as already split into members. -/
def newReferenceSetFromReader (snap : Snapshot) : Except String referenceSet :=
  match decodeMembers snap [] with
  | .error err => .error err
  | .ok data => .ok { data := data, cache := [] }

/-- Go `strings.Split(s, sep)` for a one-character separator, on character lists. -/
def splitChars (sep : Char) : List Char → List (List Char)
  | [] => [[]]
  | c :: cs =>
    if c = sep then [] :: splitChars sep cs
    else
      match splitChars sep cs with
      | [] => [[c]]
      | level :: more => (c :: level) :: more

/-- The `/`-delimited levels of a topic or of a filter. -/
def topicLevels (topic : String) : List (List Char) :=
  splitChars '/' topic.data

/-- The filter contains an MQTT wildcard character, `+` or `#`. -/
def hasWildcard (filter : String) : Bool :=
  filter.data.any (fun c => c = '+' || c = '#')

/-- Modelled from the spec: the level-by-level match of section 4.2, whose code is not
among the sources: "`+` matches exactly one arbitrary level; `#` is only valid as the
final level and matches that level and all remaining levels (including none); any
other literal level must match exactly". A `#` that is not the final level matches
nothing. -/
def matchLevels : List (List Char) → List (List Char) → Bool
  | [], topic => topic.isEmpty
  | level :: more, topic =>
    if level = ['#'] then more.isEmpty
    else
      match topic with
      | [] => false
      | tlevel :: tmore => (level = ['+'] || level = tlevel) && matchLevels more tmore

/-- The filter matches the topic, level by level. -/
def topicMatches (filter topic : String) : Bool :=
  matchLevels (topicLevels filter) (topicLevels topic)

/-- Modelled from the spec: the resolution of a filter against the loaded mapping
(section 4.2), whose code is not among the sources: "a filter containing no MQTT
wildcard characters is resolved by a single exact-key lookup", a filter with
wildcards by matching every topic; "the result is the sub-mapping of all topics
satisfying the match". -/
def resolve (data : Messages) (filter : String) : Messages :=
  if hasWildcard filter then
    data.filter (fun entry => topicMatches filter entry.1)
  else
    match mapIndex data filter with
    | some payload => [(filter, payload)]
    | none => []

/-- Modelled from the spec: `GetMessages`, which `ref_test.go` calls and whose body is
not among the sources: the mapping returned and the reference set with its cache
afterwards. "Every result (exact or wildcard) is memoized under its literal filter
string so that a repeated call with the same filter string returns the cached mapping
without recomputation; the cache never evicts entries" (section 4.2). -/
def referenceSet.GetMessages (r : referenceSet) (filter : String) : Messages × referenceSet :=
  match mapIndex r.cache filter with
  | some msgs => (msgs, r)
  | none =>
    let msgs := resolve r.data filter
    (msgs, { r with cache := mapAssign r.cache filter msgs })

/-- The reference set after a sequence of `GetMessages` calls, one per filter. -/
def referenceSet.afterCalls (r : referenceSet) : List String → referenceSet
  | [] => r
  | filter :: later => (r.GetMessages filter).2.afterCalls later

/-- No key occurs twice in the entry list. -/
def KeysNodup {β : Type} (m : List (String × β)) : Prop :=
  (m.map Prod.fst).Nodup

/-- Go `strings.Join(levels, sep)` on character lists. -/
def joinChars (sep : Char) : List (List Char) → List Char
  | [] => []
  | [level] => level
  | level :: more => level ++ sep :: joinChars sep more

/-- Every cached mapping is the resolution of its filter against the data. -/
def CacheSound (r : referenceSet) : Prop :=
  ∀ filter msgs, mapIndex r.cache filter = some msgs → msgs = resolve r.data filter

/-- Go `base64.StdEncoding.EncodeToString`, used by `ref_test.go` to build its snapshot. -/
def base64Alphabet : List Char :=
  "ABCDEFGHIJKLMNOPQRSTUVWXYZabcdefghijklmnopqrstuvwxyz0123456789+/".data

/-- The base64 character of a six-bit value. -/
def base64Char (v : Nat) : Char :=
  base64Alphabet.getD v '='

/-- Go `base64.StdEncoding.EncodeToString` on a list of byte values. -/
def base64EncodeBytes : List Nat → List Char
  | [] => []
  | [a] => [base64Char (a / 4), base64Char (a % 4 * 16), '=', '=']
  | [a, b] => [base64Char (a / 4), base64Char (a % 4 * 16 + b / 16), base64Char (b % 16 * 4), '=']
  | a :: b :: c :: rest =>
    base64Char (a / 4) :: base64Char (a % 4 * 16 + b / 16) ::
      base64Char (b % 16 * 4 + c / 64) :: base64Char (c % 64) :: base64EncodeBytes rest

/-- The bytes of a Go string literal of ASCII characters, `[]byte("...")`. -/
def bytesOf (s : String) : Payload :=
  s.data.map Char.toNat

/-- The expression `b64(p)` of `ref_test.go`. -/
def b64 (p : Payload) : String :=
  String.mk (base64EncodeBytes p)

/-! ## The test of `ref_test.go` and sample inputs -/

/-- The snapshot `TestReferenceSetCache` feeds to `newReferenceSetFromReader`
(`ref_test.go` lines 12-18). -/
def testSnapshot : Snapshot :=
  [("/this/is/a/lengthy/key/name", b64 (bytesOf "correct_payload_0")),
   ("/this/is/shorter", b64 (bytesOf "payload_1"))]

/-- The reference set that loading `testSnapshot` yields. -/
def testReferenceSet : referenceSet :=
  { data := [("/this/is/a/lengthy/key/name", bytesOf "correct_payload_0"),
             ("/this/is/shorter", bytesOf "payload_1")],
    cache := [] }

/-- The Go expression `bytes.Compare(res[t], p) != 0`; a missing key reads as the nil
slice. -/
def payloadDiffers (res : Messages) (t : String) (p : Payload) : Bool :=
  (mapIndex res t).getD [] != p

/-- The function `TestReferenceSetCache` (`ref_test.go` lines 11-60): `true` when no
check calls `t.Error` or `t.Fail`. -/
def TestReferenceSetCache : Bool :=
  let t0 := "/this/is/a/lengthy/key/name"
  let p0 := bytesOf "correct_payload_0"
  let t1 := "/this/is/shorter"
  let p1 := bytesOf "payload_1"
  match newReferenceSetFromReader [(t0, b64 p0), (t1, b64 p1)] with
  | .error _ => false
  | .ok ref =>
    -- exact
    let r1 := ref.GetMessages t0
    let fail1 := r1.1.length != 1 || payloadDiffers r1.1 t0 p0
    -- cached
    let r2 := r1.2.GetMessages t0
    let fail2 := r2.1.length != 1 || payloadDiffers r2.1 t0 p0
    -- wildcard
    let r3 := r2.2.GetMessages "/this/is/#"
    let fail3 := r3.1.length != 2 || payloadDiffers r3.1 t0 p0 || payloadDiffers r3.1 t1 p1
    -- wildcard cached
    let r4 := r3.2.GetMessages "/this/is/#"
    let fail4 := r4.1.length != 2 || payloadDiffers r4.1 t0 p0 || payloadDiffers r4.1 t1 p1
    -- nonsense
    let r5 := r4.2.GetMessages "/not/existing/#"
    let fail5 := r5.1.length != 0
    -- nonsense cached
    let r6 := r5.2.GetMessages "/not/existing/#"
    let fail6 := r6.1.length != 0
    !(fail1 || fail2 || fail3 || fail4 || fail5 || fail6)

/-- Flag values of a run against the public test broker, before `PreRunE`: no port
given, ten agents asked for, a credentials file given. -/
def sampleFlags : Flags :=
  { brokerAddr := "iot.eclipse.org"
    scenarioFile := "scenario.json"
    referenceFile := ""
    nAgents := 10
    sleep := 250000000
    clientIDPrefix := "mq-hammer:v0:"
    agentLogFormat := ""
    credentialsFile := "creds.csv"
    insecure := false
    disableMqttTLS := false
    prometheusSrv := ":8080"
    nssKeyLogFile := ""
    verbose := false
    verboser := false
    username := ""
    password := "" }

/-- The flag values `PreRunE` leaves for `sampleFlags`: default TLS port, four agents. -/
def sampleRunFlags : Flags :=
  { sampleFlags with brokerAddr := "iot.eclipse.org:8883", nAgents := 4 }

/-- Callees that all succeed. The credentials read from a file are represented by
their number, so `Size` is the identity; the file holds `pool` credentials. -/
def sampleCallees (pool : Int) : Callees Unit Unit Int Unit Unit :=
  { newScenarioFromFile := fun _ => .ok ()
    newReferenceSetFromFile := fun _ => .ok ()
    newMqttCredentialsFromFile := fun _ => .ok pool
    Size := fun fcreds => fcreds
    osOpenFile := fun _ => .ok ()
    newPrometheusMetrics := fun _ => .ok () }

/-- Callees that succeed until the exporter, which cannot bind its address. -/
def exporterFails (pool : Int) : Callees Unit Unit Int Unit Unit :=
  { sampleCallees pool with
    newPrometheusMetrics := fun _ => .error "listen tcp :8080: bind: address already in use" }

/-! # Theorems -/

/-! ## Lemmas on `strings.Contains` -/

theorem containsChars_nil_right (s : List Char) : containsChars s [] = true := by
  cases s <;> simp [containsChars, List.isPrefixOf]

theorem containsChars_singleton (c : Char) (s : List Char) :
    containsChars s [c] = true ↔ c ∈ s := by
  induction s with
  | nil => simp [containsChars]
  | cons a s ih =>
    have hp : [c].isPrefixOf (a :: s) = true ↔ c = a := by
      simp [List.isPrefixOf]
    simp only [containsChars, Bool.or_eq_true, ih, List.mem_cons, hp]

/-- A block that avoids the character `c` begins `s ++ c :: t` exactly when it
begins `s`. -/
theorem isPrefixOf_append_cons (c : Char) (t : List Char) :
    ∀ (substr s : List Char), c ∉ substr →
      substr.isPrefixOf (s ++ c :: t) = substr.isPrefixOf s
  | [], s, _ => by simp [List.isPrefixOf]
  | a :: substr, [], h => by
    have hne : a ≠ c := fun e => h (by simp [e])
    simp [List.isPrefixOf, hne]
  | a :: substr, b :: s, h => by
    have h1 : c ∉ substr := fun e => h (List.mem_cons_of_mem _ e)
    simp [List.isPrefixOf, isPrefixOf_append_cons c t substr s h1]

/-- Appending a tail that starts with a character foreign to `substr`, and that does
not itself contain `substr`, creates no new occurrence of `substr`. -/
theorem containsChars_append_cons (c : Char) (t substr : List Char) (hc : c ∉ substr)
    (ht : containsChars (c :: t) substr = false) (s : List Char) :
    containsChars (s ++ c :: t) substr = containsChars s substr := by
  induction s with
  | nil =>
    have hne : substr ≠ [] := by
      rintro rfl
      simp [containsChars_nil_right] at ht
    cases substr with
    | nil => exact absurd rfl hne
    | cons a substr => simpa [containsChars] using ht
  | cons b s ih =>
    have hp := isPrefixOf_append_cons c t substr (b :: s) hc
    simp only [List.cons_append] at hp ⊢
    simp only [containsChars, hp, ih]

theorem stringsContains_append_port (addr port : String) (c : Char) (t : List Char)
    (hport : port.data = c :: t) (hc : c ∉ "iot.eclipse.org".data)
    (ht : containsChars (c :: t) "iot.eclipse.org".data = false) :
    stringsContains (addr ++ port) "iot.eclipse.org" = stringsContains addr "iot.eclipse.org" := by
  unfold stringsContains
  rw [String.data_append, hport]
  exact containsChars_append_cons c t _ hc ht addr.data

theorem stringsContains_append_8883 (addr : String) :
    stringsContains (addr ++ ":8883") "iot.eclipse.org" = stringsContains addr "iot.eclipse.org" :=
  stringsContains_append_port addr ":8883" ':' "8883".data rfl (by decide) (by decide)

theorem stringsContains_append_1883 (addr : String) :
    stringsContains (addr ++ ":1883") "iot.eclipse.org" = stringsContains addr "iot.eclipse.org" :=
  stringsContains_append_port addr ":1883" ':' "1883".data rfl (by decide) (by decide)

/-- The broker address after the default-port step of `PreRunE` mentions the public
test broker exactly when the address given does. -/
theorem PreRunE_brokerAddr_contains (g : Flags) (h : g.brokerAddr ≠ "") :
    stringsContains (PreRunE g).2.brokerAddr "iot.eclipse.org" =
      stringsContains g.brokerAddr "iot.eclipse.org" := by
  unfold PreRunE
  simp only [h, if_false]
  split_ifs <;> simp_all [stringsContains_append_8883, stringsContains_append_1883]

/-! ## The pre-run check -/

/-- The broker address after the default-port step of `PreRunE`. -/
theorem PreRunE_eq (g : Flags) (h : g.brokerAddr ≠ "") (addr : String)
    (haddr : addr = (if stringsContains g.brokerAddr ":" then g.brokerAddr
       else if g.disableMqttTLS then g.brokerAddr ++ ":1883"
       else g.brokerAddr ++ ":8883")) :
    PreRunE g =
      (if g.scenarioFile = "" then some (.errorsNew "scenario cannot be empty") else none,
       { g with
         brokerAddr := addr
         nAgents := if stringsContains addr "iot.eclipse.org" && decide (g.nAgents > 4)
           then 4 else g.nAgents }) := by
  subst haddr
  rcases g with ⟨brokerAddr, scenarioFile, referenceFile, nAgents, sleep, clientIDPrefix,
    agentLogFormat, credentialsFile, insecure, disableMqttTLS, prometheusSrv, nssKeyLogFile,
    verbose, verboser, username, password⟩
  simp only at h
  unfold PreRunE
  simp only [if_neg h]
  by_cases hc : stringsContains brokerAddr ":" = true
  · by_cases hi : (stringsContains brokerAddr "iot.eclipse.org" && decide (nAgents > 4)) = true
    · by_cases hs : scenarioFile = "" <;> simp [hc, hi, hs]
    · by_cases hs : scenarioFile = "" <;> simp [hc, hi, hs]
  · by_cases ht : disableMqttTLS = true
    · by_cases hi : (stringsContains (brokerAddr ++ ":1883") "iot.eclipse.org"
          && decide (nAgents > 4)) = true
      · by_cases hs : scenarioFile = "" <;> simp [hc, ht, hi, hs]
      · by_cases hs : scenarioFile = "" <;> simp [hc, ht, hi, hs]
    · by_cases hi : (stringsContains (brokerAddr ++ ":8883") "iot.eclipse.org"
          && decide (nAgents > 4)) = true
      · by_cases hs : scenarioFile = "" <;> simp [hc, ht, hi, hs]
      · by_cases hs : scenarioFile = "" <;> simp [hc, ht, hi, hs]

section RunE

variable {σ ρ κ ω μ : Type}

/-! ## The run -/

theorem loadReference_trace (w : Callees σ ρ κ ω μ) (g : Flags) :
    ∀ e ∈ (loadReference w g).2, e.isStartup = true := by
  unfold loadReference
  split_ifs
  · cases w.newReferenceSetFromFile g.referenceFile <;> simp [Effect.isStartup]
  · simp

theorem selectCredentials_trace (w : Callees σ ρ κ ω μ) (g : Flags) :
    ∀ e ∈ (selectCredentials w g).2, e.isStartup = true := by
  unfold selectCredentials
  split_ifs
  · cases w.newMqttCredentialsFromFile g.credentialsFile with
    | error err => simp [Effect.isStartup]
    | ok fcreds => dsimp only; split_ifs <;> simp [Effect.isStartup]
  · simp

theorem sharedTlsConfig_trace (w : Callees σ ρ κ ω μ) (g : Flags) :
    ∀ e ∈ (sharedTlsConfig w g).2, e.isStartup = true := by
  unfold sharedTlsConfig
  split_ifs
  · cases w.osOpenFile g.nssKeyLogFile <;> simp [Effect.isStartup]
  · simp

theorem collectMetricsHandlers_trace (w : Callees σ ρ κ ω μ) (g : Flags) :
    ∀ e ∈ (collectMetricsHandlers w g).2, e.isStartup = true := by
  unfold collectMetricsHandlers
  split_ifs
  · cases w.newPrometheusMetrics g.prometheusSrv <;> simp [Effect.isStartup]
  · simp

theorem countP_eq_zero_of_startup (p : Effect σ ρ κ ω μ → Bool)
    (hp : ∀ e, e.isStartup = true → p e = false) (t : List (Effect σ ρ κ ω μ))
    (ht : ∀ e ∈ t, e.isStartup = true) : t.countP p = 0 := by
  rw [List.countP_eq_zero]
  intro e he
  simp [hp e (ht e he)]

/-- When `RunE` returns an error, every call it made is a start-up call. -/
theorem RunE_error_trace (w : Callees σ ρ κ ω μ) (g : Flags) (h : (RunE w g).1 ≠ none) :
    ∀ e ∈ (RunE w g).2, e.isStartup = true := by
  have h1 := loadReference_trace w g
  have h2 := selectCredentials_trace w g
  have h3 := sharedTlsConfig_trace w g
  have h4 := collectMetricsHandlers_trace w g
  revert h h1 h2 h3 h4
  unfold RunE
  cases w.newScenarioFromFile g.scenarioFile with
  | error err => simp [Effect.isStartup]
  | ok scenario =>
    rcases loadReference w g with ⟨_ | refSet, t1⟩
    · intro _ h1 _ _ _
      simpa [Effect.isStartup] using h1
    rcases selectCredentials w g with ⟨_ | creds, t2⟩
    · intro _ h1 h2 _ _
      simp only [List.mem_append, List.mem_singleton]
      rintro e ((rfl | he) | he)
      · rfl
      · exact h1 e he
      · exact h2 e he
    rcases sharedTlsConfig w g with ⟨_ | tlsCfg, t3⟩
    · intro _ h1 h2 h3 _
      simp only [List.mem_append, List.mem_singleton]
      rintro e (((rfl | he) | he) | he)
      · rfl
      · exact h1 e he
      · exact h2 e he
      · exact h3 e he
    rcases collectMetricsHandlers w g with ⟨_ | handlers, t4⟩
    · intro _ h1 h2 h3 h4
      simp only [List.mem_append, List.mem_singleton]
      rintro e ((((rfl | he) | he) | he) | he)
      · rfl
      · exact h1 e he
      · exact h2 e he
      · exact h3 e he
      · exact h4 e he
    · intro h
      simp at h

/-- When `RunE` returns `nil`, its calls are start-up calls followed by the creation
of the funnel, the start of its processing, the creation of the controller, the
optional TLS switch and `Control()`. -/
theorem RunE_ok_trace (w : Callees σ ρ κ ω μ) (g : Flags) (h : (RunE w g).1 = none) :
    ∃ (t : List (Effect σ ρ κ ω μ)) (handlers : List (MetricsHandler μ))
      (tlsCfg : TlsConfig ω) (creds : MqttCredentials κ) (refSet : Option ρ) (scenario : σ),
      (∀ e ∈ t, e.isStartup = true) ∧
      (selectCredentials w g).1 = .ok creds ∧
      (RunE w g).2 = t ++
        [.newChanneledFunnel handlers, .goProcess,
         .newAgentController g.brokerAddr tlsCfg g.nAgents g.agentLogFormat g.sleep
           creds handlers refSet scenario] ++
        (if g.disableMqttTLS then [.setDisableMqttTLS] else []) ++ [.Control] := by
  have h1 := loadReference_trace w g
  have h2 := selectCredentials_trace w g
  have h3 := sharedTlsConfig_trace w g
  have h4 := collectMetricsHandlers_trace w g
  revert h h1 h2 h3 h4
  unfold RunE
  cases w.newScenarioFromFile g.scenarioFile with
  | error err => simp
  | ok scenario =>
    rcases loadReference w g with ⟨_ | refSet, t1⟩
    · simp
    rcases selectCredentials w g with ⟨_ | creds, t2⟩
    · simp
    rcases sharedTlsConfig w g with ⟨_ | tlsCfg, t3⟩
    · simp
    rcases collectMetricsHandlers w g with ⟨_ | handlers, t4⟩
    · simp
    · intro _ h1 h2 h3 h4
      refine ⟨[.newScenarioFromFile g.scenarioFile] ++ t1 ++ t2 ++ t3 ++ t4, handlers, tlsCfg,
        creds, refSet, scenario, ?_, rfl, rfl⟩
      simp only [List.mem_append, List.mem_singleton]
      rintro e ((((rfl | he) | he) | he) | he)
      · rfl
      · exact h1 e he
      · exact h2 e he
      · exact h3 e he
      · exact h4 e he

theorem selectCredentials_of_file (w : Callees σ ρ κ ω μ) (g : Flags) (fcreds : κ)
    (hc : g.credentialsFile ≠ "")
    (hl : w.newMqttCredentialsFromFile g.credentialsFile = .ok fcreds) :
    selectCredentials w g =
      (if g.nAgents > w.Size fcreds then
        .error (.fmtErrorf "cannot create %d agents with only %d tokens provided"
          [g.nAgents, w.Size fcreds])
       else .ok (.fromFile fcreds), [.newMqttCredentialsFromFile g.credentialsFile]) := by
  unfold selectCredentials
  simp only [hc, ne_eq, not_false_eq_true, if_true, hl]
  split_ifs <;> rfl

theorem loadReference_ok_of (w : Callees σ ρ κ ω μ) (g : Flags)
    (hr : g.referenceFile ≠ "" → ∃ r, w.newReferenceSetFromFile g.referenceFile = .ok r) :
    ∃ refSet, (loadReference w g).1 = .ok refSet := by
  unfold loadReference
  by_cases h : g.referenceFile = ""
  · simp [h]
  · obtain ⟨r, hr⟩ := hr h
    simp [h, hr]

theorem sharedTlsConfig_error (w : Callees σ ρ κ ω μ) (g : Flags) (err : GoError)
    (h : (sharedTlsConfig w g).1 = .error err) : ∃ msg, err = .returned msg := by
  revert h
  unfold sharedTlsConfig
  split_ifs
  · cases w.osOpenFile g.nssKeyLogFile <;> simp
    intro h; exact ⟨_, h.symm⟩
  · simp

theorem collectMetricsHandlers_error (w : Callees σ ρ κ ω μ) (g : Flags) (err : GoError)
    (h : (collectMetricsHandlers w g).1 = .error err) : ∃ msg, err = .returned msg := by
  revert h
  unfold collectMetricsHandlers
  split_ifs
  · cases w.newPrometheusMetrics g.prometheusSrv <;> simp
    intro h; exact ⟨_, h.symm⟩
  · simp

/-- The pool-size check inside `RunE`, once the steps before it have succeeded and the
credentials file has been read. -/
theorem RunE_pool_check (w : Callees σ ρ κ ω μ) (g : Flags) (scenario : σ) (fcreds : κ)
    (hs : w.newScenarioFromFile g.scenarioFile = .ok scenario)
    (hr : g.referenceFile ≠ "" → ∃ r, w.newReferenceSetFromFile g.referenceFile = .ok r)
    (hc : g.credentialsFile ≠ "")
    (hl : w.newMqttCredentialsFromFile g.credentialsFile = .ok fcreds) :
    (g.nAgents > w.Size fcreds →
      (RunE w g).1 = some (.fmtErrorf "cannot create %d agents with only %d tokens provided"
        [g.nAgents, w.Size fcreds])) ∧
    (¬ g.nAgents > w.Size fcreds →
      (RunE w g).1 = none ∨ ∃ msg, (RunE w g).1 = some (.returned msg)) := by
  have hsel := selectCredentials_of_file w g fcreds hc hl
  obtain ⟨refSet, href⟩ := loadReference_ok_of w g hr
  have h3 := sharedTlsConfig_error w g
  have h4 := collectMetricsHandlers_error w g
  revert href hsel h3 h4
  unfold RunE
  rw [hs]
  rcases loadReference w g with ⟨_ | refSet1, t1⟩
  · simp
  rcases selectCredentials w g with ⟨_ | creds, t2⟩
  · intro hsel _ _ _
    constructor
    · intro hgt
      simp only [hgt, if_true, Prod.mk.injEq, Except.error.injEq] at hsel
      simp [hsel.1]
    · intro hle
      simp [hle] at hsel
  rcases sharedTlsConfig w g with ⟨_ | tlsCfg, t3⟩
  · intro hsel _ h3 _
    obtain ⟨msg, rfl⟩ := h3 _ rfl
    constructor
    · intro hgt
      simp [hgt] at hsel
    · intro _
      exact Or.inr ⟨msg, rfl⟩
  rcases collectMetricsHandlers w g with ⟨_ | handlers, t4⟩
  · intro hsel _ _ h4
    obtain ⟨msg, rfl⟩ := h4 _ rfl
    constructor
    · intro hgt
      simp [hgt] at hsel
    · intro _
      exact Or.inr ⟨msg, rfl⟩
  · intro hsel _ _ _
    constructor
    · intro hgt
      simp [hgt] at hsel
    · intro _
      exact Or.inl rfl

theorem loadReference_ok_eq (w : Callees σ ρ κ ω μ) (g : Flags)
    (hr : g.referenceFile ≠ "" → ∃ r, w.newReferenceSetFromFile g.referenceFile = .ok r) :
    ∃ refSet t, loadReference w g = (.ok refSet, t) := by
  unfold loadReference
  by_cases h : g.referenceFile = ""
  · simp [h]
  · obtain ⟨r, hr⟩ := hr h
    simp [h, hr]

theorem selectCredentials_ok_eq (w : Callees σ ρ κ ω μ) (g : Flags)
    (hc : g.credentialsFile ≠ "" →
      ∃ fc, w.newMqttCredentialsFromFile g.credentialsFile = .ok fc ∧ g.nAgents ≤ w.Size fc) :
    ∃ creds t, selectCredentials w g = (.ok creds, t) := by
  unfold selectCredentials
  by_cases h : g.credentialsFile = ""
  · simp [h]
  · obtain ⟨fc, hfc, hle⟩ := hc h
    simp [h, hfc, not_lt.mpr hle]

theorem sharedTlsConfig_ok_eq (w : Callees σ ρ κ ω μ) (g : Flags)
    (hk : g.nssKeyLogFile ≠ "" → ∃ wr, w.osOpenFile g.nssKeyLogFile = .ok wr) :
    ∃ tlsCfg t, sharedTlsConfig w g = (.ok tlsCfg, t) := by
  unfold sharedTlsConfig
  by_cases h : g.nssKeyLogFile = ""
  · simp [h]
  · obtain ⟨wr, hwr⟩ := hk h
    simp [h, hwr]

theorem collectMetricsHandlers_ok_eq (w : Callees σ ρ κ ω μ) (g : Flags)
    (hp : g.prometheusSrv ≠ "" → ∃ pm, w.newPrometheusMetrics g.prometheusSrv = .ok pm) :
    ∃ handlers t, collectMetricsHandlers w g = (.ok handlers, t) := by
  unfold collectMetricsHandlers
  by_cases h : g.prometheusSrv = ""
  · simp [h]
  · obtain ⟨pm, hpm⟩ := hp h
    simp [h, hpm]

theorem getLast_snoc {α : Type} (l : List α) (x : α) : (l ++ [x]).getLast? = some x := by
  simp

theorem isStartup_not_later (e : Effect σ ρ κ ω μ) (h : e.isStartup = true) :
    e.isFunnel = false ∧ e.isController = false ∧ e.isControl = false := by
  cases e <;> simp_all [Effect.isStartup, Effect.isFunnel, Effect.isController, Effect.isControl]


/-- The pool-size error is what `RunE` returns exactly when the agents outnumber the
pool, once the steps before the check have succeeded. -/
theorem RunE_pool_error_iff (w : Callees σ ρ κ ω μ) (g : Flags) (scenario : σ) (fcreds : κ)
    (hs : w.newScenarioFromFile g.scenarioFile = .ok scenario)
    (hr : g.referenceFile ≠ "" → ∃ r, w.newReferenceSetFromFile g.referenceFile = .ok r)
    (hc : g.credentialsFile ≠ "")
    (hl : w.newMqttCredentialsFromFile g.credentialsFile = .ok fcreds) :
    (∀ format args, (RunE w g).1 = some (.fmtErrorf format args) →
      g.nAgents > w.Size fcreds) ∧
    (g.nAgents > w.Size fcreds →
      (RunE w g).1 = some (.fmtErrorf "cannot create %d agents with only %d tokens provided"
        [g.nAgents, w.Size fcreds])) := by
  obtain ⟨hgt, hle⟩ := RunE_pool_check w g scenario fcreds hs hr hc hl
  refine ⟨?_, hgt⟩
  intro format args h
  by_contra hn
  rcases hle hn with h1 | ⟨msg, h1⟩
  · rw [h1] at h; cases h
  · rw [h1] at h; cases h


/-- The credentials file is read only after the scenario and the optional reference
file have loaded, and only when a credentials file is given. -/
theorem RunE_credentials_called (w : Callees σ ρ κ ω μ) (g : Flags)
    (h : Effect.newMqttCredentialsFromFile g.credentialsFile ∈ (RunE w g).2) :
    (∃ sc, w.newScenarioFromFile g.scenarioFile = .ok sc) ∧
    (g.referenceFile ≠ "" → ∃ r, w.newReferenceSetFromFile g.referenceFile = .ok r) ∧
    g.credentialsFile ≠ "" := by
  have hA : ∀ e ∈ (loadReference w g).2, e = .newReferenceSetFromFile g.referenceFile := by
    unfold loadReference
    split_ifs
    · cases w.newReferenceSetFromFile g.referenceFile <;> simp
    · simp
  have hC : ∀ e ∈ (sharedTlsConfig w g).2, e = .osOpenFile g.nssKeyLogFile := by
    unfold sharedTlsConfig
    split_ifs
    · cases w.osOpenFile g.nssKeyLogFile <;> simp
    · simp
  have hD : ∀ e ∈ (collectMetricsHandlers w g).2,
      e = .newPrometheusMetrics g.prometheusSrv := by
    unfold collectMetricsHandlers
    split_ifs
    · cases w.newPrometheusMetrics g.prometheusSrv <;> simp
    · simp
  have hB : g.credentialsFile = "" → (selectCredentials w g).2 = [] := by
    intro hc
    simp [selectCredentials, hc]
  have hR : g.referenceFile ≠ "" → ∀ msg,
      w.newReferenceSetFromFile g.referenceFile = .error msg →
      ∃ err, (loadReference w g).1 = .error err := by
    intro hne msg hmsg
    exact ⟨.returned msg, by simp [loadReference, hne, hmsg]⟩
  revert h hA hB hC hD hR
  unfold RunE
  cases hs : w.newScenarioFromFile g.scenarioFile with
  | error err => simp
  | ok scenario =>
    intro h hA hC hD hB hR
    refine ⟨⟨scenario, rfl⟩, ?_, ?_⟩
    · intro hne
      cases hr : w.newReferenceSetFromFile g.referenceFile with
      | ok r => exact ⟨r, rfl⟩
      | error msg =>
        exfalso
        obtain ⟨err, herr⟩ := hR hne msg hr
        rcases hlr : loadReference w g with ⟨_ | refSet, t1⟩
        · rw [hlr] at hA h
          simp only [List.mem_append, List.mem_singleton] at h
          rcases h with h | h
          · cases h
          · have := hA _ h
            cases this
        · rw [hlr] at herr
          cases herr
    · intro hc
      have hB1 := hB hc
      rcases hlr : loadReference w g with ⟨_ | refSet, t1⟩
      · rw [hlr] at hA h
        simp only [List.mem_append, List.mem_singleton] at h
        rcases h with h | h
        · cases h
        · have := hA _ h
          cases this
      rcases hsc : selectCredentials w g with ⟨_ | creds, t2⟩
      · rw [hlr, hsc] at h
        rw [hlr] at hA
        rw [hsc] at hB1
        simp only at hB1 hA
        subst hB1
        simp only [List.mem_append, List.mem_singleton, List.not_mem_nil, or_false] at h
        rcases h with h | h
        · cases h
        · have := hA _ h
          cases this
      rcases htl : sharedTlsConfig w g with ⟨_ | tlsCfg, t3⟩
      · rw [hlr, hsc, htl] at h
        rw [hlr] at hA
        rw [hsc] at hB1
        rw [htl] at hC
        simp only at hB1 hA hC
        subst hB1
        simp only [List.mem_append, List.mem_singleton, List.not_mem_nil, or_false] at h
        rcases h with (h | h) | h
        · cases h
        · have := hA _ h
          cases this
        · have := hC _ h
          cases this
      rcases hmh : collectMetricsHandlers w g with ⟨_ | handlers, t4⟩
      · rw [hlr, hsc, htl, hmh] at h
        rw [hlr] at hA
        rw [hsc] at hB1
        rw [htl] at hC
        rw [hmh] at hD
        simp only at hB1 hA hC hD
        subst hB1
        simp only [List.mem_append, List.mem_singleton, List.not_mem_nil, or_false] at h
        rcases h with ((h | h) | h) | h
        · cases h
        · have := hA _ h
          cases this
        · have := hC _ h
          cases this
        · have := hD _ h
          cases this
      · rw [hlr, hsc, htl, hmh] at h
        rw [hlr] at hA
        rw [hsc] at hB1
        rw [htl] at hC
        rw [hmh] at hD
        simp only at hB1 hA hC hD
        subst hB1
        simp only [List.mem_append, List.mem_singleton, List.not_mem_nil, or_false,
          List.mem_cons] at h
        rcases h with (((((h | h) | h) | h) | h) | h) | h
        · cases h
        · have := hA _ h
          cases this
        · have := hC _ h
          cases this
        · have := hD _ h
          cases this
        · rcases h with h | h | h <;> cases h
        · split_ifs at h <;> simp at h
        · cases h

end RunE

/-! ## Go maps as entry lists -/

theorem mapIndex_eq_none_iff {β : Type} (m : List (String × β)) (k : String) :
    mapIndex m k = none ↔ k ∉ m.map Prod.fst := by
  induction m with
  | nil => simp [mapIndex]
  | cons e m ih =>
    obtain ⟨k1, v1⟩ := e
    by_cases h : k1 = k
    · simp [mapIndex, h]
    · simp [mapIndex, h, ih, Ne.symm h]

theorem mem_of_mapIndex {β : Type} (m : List (String × β)) (k : String) (v : β)
    (h : mapIndex m k = some v) : (k, v) ∈ m := by
  induction m with
  | nil => simp [mapIndex] at h
  | cons e m ih =>
    obtain ⟨k1, v1⟩ := e
    by_cases hk : k1 = k
    · simp [mapIndex, hk] at h
      simp [hk, h]
    · simp [mapIndex, hk] at h
      exact List.mem_cons_of_mem _ (ih h)

theorem mapIndex_of_mem {β : Type} (m : List (String × β)) (hm : KeysNodup m) (k : String)
    (v : β) (h : (k, v) ∈ m) : mapIndex m k = some v := by
  induction m with
  | nil => simp at h
  | cons e m ih =>
    obtain ⟨k1, v1⟩ := e
    simp only [KeysNodup, List.map_cons, List.nodup_cons] at hm
    rcases List.mem_cons.mp h with heq | hmem
    · cases heq
      simp [mapIndex]
    · have hne : k1 ≠ k := by
        rintro rfl
        exact hm.1 (List.mem_map.mpr ⟨(k1, v), hmem, rfl⟩)
      simp only [mapIndex, hne, if_false]
      exact ih hm.2 hmem

theorem mapIndex_iff_mem {β : Type} (m : List (String × β)) (hm : KeysNodup m) (k : String)
    (v : β) : mapIndex m k = some v ↔ (k, v) ∈ m :=
  ⟨mem_of_mapIndex m k v, mapIndex_of_mem m hm k v⟩

theorem mapIndex_mapAssign {β : Type} (m : List (String × β)) (k : String) (v : β)
    (k2 : String) :
    mapIndex (mapAssign m k v) k2 = if k = k2 then some v else mapIndex m k2 := by
  induction m with
  | nil => simp [mapAssign, mapIndex]
  | cons e m ih =>
    obtain ⟨k1, v1⟩ := e
    by_cases h : k1 = k
    · subst h
      by_cases h2 : k1 = k2 <;> simp [mapAssign, mapIndex, h2]
    · by_cases h2 : k1 = k2
      · subst h2
        simp [mapAssign, mapIndex, h, Ne.symm h]
      · simp [mapAssign, mapIndex, h, h2, ih]

theorem keys_mapAssign_subset {β : Type} (m : List (String × β)) (k : String) (v : β)
    (k2 : String) (h : k2 ∈ (mapAssign m k v).map Prod.fst) :
    k2 = k ∨ k2 ∈ m.map Prod.fst := by
  by_contra hn
  push_neg at hn
  have h1 : mapIndex (mapAssign m k v) k2 = none := by
    rw [mapIndex_mapAssign, if_neg (Ne.symm hn.1)]
    exact (mapIndex_eq_none_iff m k2).mpr hn.2
  exact (mapIndex_eq_none_iff _ k2).mp h1 h

theorem KeysNodup_mapAssign {β : Type} (m : List (String × β)) (hm : KeysNodup m) (k : String)
    (v : β) : KeysNodup (mapAssign m k v) := by
  induction m with
  | nil => simp [mapAssign, KeysNodup]
  | cons e m ih =>
    obtain ⟨k1, v1⟩ := e
    simp only [KeysNodup, List.map_cons, List.nodup_cons] at hm
    by_cases h : k1 = k
    · subst h
      simp only [mapAssign, if_true, KeysNodup, List.map_cons, List.nodup_cons]
      exact hm
    · simp only [mapAssign, h, if_false, KeysNodup, List.map_cons, List.nodup_cons]
      refine ⟨?_, ih hm.2⟩
      intro hmem
      rcases keys_mapAssign_subset m k v k1 hmem with h1 | h1
      · exact h h1
      · exact hm.1 h1

/-! ## Loading the snapshot -/

theorem decodeMembers_spec (snap : Snapshot) :
    ∀ (m data : Messages), KeysNodup m → decodeMembers snap m = .ok data →
      KeysNodup data ∧
      ∀ topic, mapIndex data topic =
        match snapshotValue snap topic with
        | some text => base64Decode text
        | none => mapIndex m topic := by
  induction snap with
  | nil =>
    intro m data hm h
    simp only [decodeMembers, Except.ok.injEq] at h
    subst h
    exact ⟨hm, fun topic => by simp [snapshotValue]⟩
  | cons e rest ih =>
    obtain ⟨k, text⟩ := e
    intro m data hm h
    simp only [decodeMembers] at h
    cases hd : base64Decode text with
    | none => simp [hd] at h
    | some payload =>
      simp only [hd] at h
      obtain ⟨hnd, hidx⟩ := ih _ data (KeysNodup_mapAssign m hm k payload) h
      refine ⟨hnd, fun topic => ?_⟩
      rw [hidx topic]
      simp only [snapshotValue]
      cases hv : snapshotValue rest topic with
      | some later => rfl
      | none =>
        simp only [mapIndex_mapAssign]
        by_cases hk : k = topic
        · simp [hk, hd]
        · simp [hk]

/-- A loaded reference set holds, for every topic, the payload the snapshot gives for
it, no topic twice, and an empty cache. -/
theorem newReferenceSetFromReader_spec (snap : Snapshot) (rs : referenceSet)
    (h : newReferenceSetFromReader snap = .ok rs) :
    KeysNodup rs.data ∧ rs.cache = [] ∧
      ∀ topic, mapIndex rs.data topic = snapshotPayload snap topic := by
  unfold newReferenceSetFromReader at h
  cases hd : decodeMembers snap [] with
  | error err => simp [hd] at h
  | ok data =>
    simp only [hd, Except.ok.injEq] at h
    subst h
    obtain ⟨hnd, hidx⟩ := decodeMembers_spec snap [] data (by simp [KeysNodup]) hd
    refine ⟨hnd, rfl, fun topic => ?_⟩
    rw [hidx topic]
    unfold snapshotPayload
    cases snapshotValue snap topic <;> simp [mapIndex]

/-! ## The cache -/

theorem GetMessages_data (r : referenceSet) (filter : String) :
    (r.GetMessages filter).2.data = r.data := by
  unfold referenceSet.GetMessages
  cases mapIndex r.cache filter <;> rfl

theorem GetMessages_sound (r : referenceSet) (h : CacheSound r) (filter : String) :
    (r.GetMessages filter).1 = resolve r.data filter ∧ CacheSound (r.GetMessages filter).2 := by
  unfold referenceSet.GetMessages
  cases hc : mapIndex r.cache filter with
  | some msgs => exact ⟨h filter msgs hc, h⟩
  | none =>
    refine ⟨rfl, ?_⟩
    intro f2 msgs hm
    simp only [mapIndex_mapAssign] at hm
    by_cases hf : filter = f2
    · subst hf
      simp only [if_true, Option.some.injEq] at hm
      exact hm.symm
    · simp only [hf, if_false] at hm
      exact h f2 msgs hm

theorem GetMessages_cached (r : referenceSet) (filter : String) :
    mapIndex (r.GetMessages filter).2.cache filter = some (r.GetMessages filter).1 := by
  unfold referenceSet.GetMessages
  cases hc : mapIndex r.cache filter with
  | some msgs => exact hc
  | none => simp [mapIndex_mapAssign]

theorem afterCalls_sound (earlier : List String) :
    ∀ r : referenceSet, CacheSound r →
      (r.afterCalls earlier).data = r.data ∧ CacheSound (r.afterCalls earlier) := by
  induction earlier with
  | nil => intro r h; exact ⟨rfl, h⟩
  | cons f later ih =>
    intro r h
    obtain ⟨hd, hs⟩ := ih (r.GetMessages f).2 (GetMessages_sound r h f).2
    exact ⟨by rw [referenceSet.afterCalls, hd, GetMessages_data], hs⟩

/-- After loading and any sequence of calls, `GetMessages` returns the resolution of
the filter against the loaded data. -/
theorem GetMessages_afterCalls (snap : Snapshot) (rs : referenceSet)
    (h : newReferenceSetFromReader snap = .ok rs) (earlier : List String) (filter : String) :
    ((rs.afterCalls earlier).GetMessages filter).1 = resolve rs.data filter := by
  obtain ⟨-, hcache, -⟩ := newReferenceSetFromReader_spec snap rs h
  have h0 : CacheSound rs := by
    intro f msgs hm
    rw [hcache] at hm
    simp [mapIndex] at hm
  obtain ⟨hd, hs⟩ := afterCalls_sound earlier rs h0
  rw [(GetMessages_sound _ hs filter).1, hd]

/-! ## Levels -/

theorem splitChars_ne_nil (sep : Char) (s : List Char) : splitChars sep s ≠ [] := by
  cases s with
  | nil => simp [splitChars]
  | cons c cs =>
    simp only [splitChars]
    split_ifs
    · simp
    · cases splitChars sep cs <;> simp

theorem joinChars_splitChars (sep : Char) (s : List Char) :
    joinChars sep (splitChars sep s) = s := by
  induction s with
  | nil => simp [splitChars, joinChars]
  | cons c cs ih =>
    simp only [splitChars]
    have hne := splitChars_ne_nil sep cs
    cases hsp : splitChars sep cs with
    | nil => exact absurd hsp hne
    | cons level more =>
      rw [hsp] at ih
      split_ifs with hc
      · subst hc
        simp [joinChars, ih]
      · cases more with
        | nil =>
          simp only [joinChars] at ih ⊢
          rw [ih]
        | cons l2 more2 =>
          simp only [joinChars] at ih ⊢
          rw [← ih]
          rfl

theorem topicLevels_injective (a b : String) (h : topicLevels a = topicLevels b) : a = b := by
  unfold topicLevels at h
  have := congrArg (joinChars '/') h
  rw [joinChars_splitChars, joinChars_splitChars] at this
  exact String.ext this

theorem mem_of_mem_splitChars (sep : Char) (s : List Char) :
    ∀ level ∈ splitChars sep s, ∀ c ∈ level, c ∈ s := by
  induction s with
  | nil => simp [splitChars]
  | cons c cs ih =>
    intro level hl x hx
    simp only [splitChars] at hl
    have hne := splitChars_ne_nil sep cs
    cases hsp : splitChars sep cs with
    | nil => exact absurd hsp hne
    | cons l0 more =>
      rw [hsp] at hl ih
      split_ifs at hl
      · rcases List.mem_cons.mp hl with h1 | h1
        · subst h1; simp at hx
        · exact List.mem_cons_of_mem _ (ih level h1 x hx)
      · rcases List.mem_cons.mp hl with h1 | h1
        · subst h1
          rcases List.mem_cons.mp hx with h2 | h2
          · subst h2; exact List.mem_cons_self _ _
          · exact List.mem_cons_of_mem _ (ih l0 (List.mem_cons_self _ _) x h2)
        · exact List.mem_cons_of_mem _ (ih level (List.mem_cons_of_mem _ h1) x hx)

/-! ## Matching -/

theorem matchLevels_no_hash (filter : List (List Char))
    (hf : ∀ level ∈ filter, level ≠ ['#']) :
    ∀ topic, matchLevels filter topic = true ↔
      List.Forall₂ (fun fl tl => fl = ['+'] ∨ fl = tl) filter topic := by
  induction filter with
  | nil =>
    intro topic
    cases topic <;> simp [matchLevels]
  | cons level more ih =>
    intro topic
    have h1 : level ≠ ['#'] := hf level (List.mem_cons_self _ _)
    have h2 := ih (fun l hl => hf l (List.mem_cons_of_mem _ hl))
    cases topic with
    | nil => simp [matchLevels, h1]
    | cons tlevel tmore =>
      simp only [matchLevels, h1, if_false, Bool.and_eq_true, Bool.or_eq_true,
        decide_eq_true_eq, List.forall₂_cons, h2 tmore]

theorem matchLevels_literals (filter : List (List Char))
    (hf : ∀ level ∈ filter, level ≠ ['+'] ∧ level ≠ ['#']) :
    ∀ topic, matchLevels filter topic = true ↔ filter = topic := by
  intro topic
  rw [matchLevels_no_hash filter (fun l hl => (hf l hl).2)]
  induction filter generalizing topic with
  | nil => cases topic <;> simp
  | cons level more ih =>
    cases topic with
    | nil => simp
    | cons tlevel tmore =>
      have h1 := (hf level (List.mem_cons_self _ _)).1
      simp only [List.forall₂_cons, h1, false_or, List.cons.injEq,
        ih (fun l hl => hf l (List.mem_cons_of_mem _ hl)) tmore]

theorem matchLevels_trailing_hash (literals : List (List Char))
    (hf : ∀ level ∈ literals, level ≠ ['+'] ∧ level ≠ ['#']) :
    ∀ topic, matchLevels (literals ++ [['#']]) topic = true ↔ literals <+: topic := by
  induction literals with
  | nil =>
    intro topic
    simp [matchLevels]
  | cons level more ih =>
    intro topic
    obtain ⟨h1, h2⟩ := hf level (List.mem_cons_self _ _)
    have h3 := ih (fun l hl => hf l (List.mem_cons_of_mem _ hl))
    cases topic with
    | nil => simp [matchLevels, h2]
    | cons tlevel tmore =>
      have h4 := h3 tmore
      simp only [List.cons_append, matchLevels, h2, if_false, h1, decide_False, Bool.false_or,
        Bool.and_eq_true, decide_eq_true_eq, List.cons_prefix_cons]
      exact and_congr_right (fun _ => h4)

theorem hasWildcard_eq_false_iff (filter : String) :
    hasWildcard filter = false ↔ ∀ c ∈ filter.data, c ≠ '+' ∧ c ≠ '#' := by
  unfold hasWildcard
  rw [← Bool.not_eq_true, List.any_eq_true]
  simp

theorem topicLevels_literal_of_no_wildcard (filter : String) (h : hasWildcard filter = false) :
    ∀ level ∈ topicLevels filter, level ≠ ['+'] ∧ level ≠ ['#'] := by
  rw [hasWildcard_eq_false_iff] at h
  intro level hl
  have hmem := mem_of_mem_splitChars '/' filter.data level hl
  constructor
  · rintro rfl
    exact (h '+' (hmem '+' (by simp))).1 rfl
  · rintro rfl
    exact (h '#' (hmem '#' (by simp))).2 rfl

/-- For a filter without wildcard characters the level-by-level match is equality. -/
theorem topicMatches_exact (filter topic : String) (h : hasWildcard filter = false) :
    topicMatches filter topic = true ↔ filter = topic := by
  unfold topicMatches
  rw [matchLevels_literals _ (topicLevels_literal_of_no_wildcard filter h)]
  exact ⟨topicLevels_injective filter topic, fun e => by rw [e]⟩

/-- The resolution of a filter holds exactly the entries of the data whose topic the
filter matches. -/
theorem mem_resolve (data : Messages) (hd : KeysNodup data) (filter topic : String)
    (payload : Payload) :
    (topic, payload) ∈ resolve data filter ↔
      (topic, payload) ∈ data ∧ topicMatches filter topic = true := by
  unfold resolve
  by_cases hw : hasWildcard filter = true
  · simp [hw, List.mem_filter]
  · have hw1 : hasWildcard filter = false := by simpa using hw
    simp only [hw1, Bool.false_eq_true, if_false, topicMatches_exact filter topic hw1]
    cases hi : mapIndex data filter with
    | none =>
      simp only [List.not_mem_nil, false_iff, not_and]
      intro hmem heq
      subst heq
      rw [mapIndex_of_mem data hd _ _ hmem] at hi
      cases hi
    | some p =>
      simp only [List.mem_singleton, Prod.mk.injEq]
      constructor
      · rintro ⟨rfl, rfl⟩
        exact ⟨mem_of_mapIndex data _ _ hi, rfl⟩
      · rintro ⟨hmem, rfl⟩
        rw [mapIndex_of_mem data hd _ _ hmem] at hi
        cases hi
        exact ⟨rfl, rfl⟩

theorem KeysNodup_resolve (data : Messages) (hd : KeysNodup data) (filter : String) :
    KeysNodup (resolve data filter) := by
  unfold resolve
  split_ifs
  · exact (List.Nodup.sublist ((List.filter_sublist data).map Prod.fst) hd)
  · cases mapIndex data filter <;> simp [KeysNodup]

theorem forall₂_iff_getElem? {α : Type} (R : α → α → Prop) :
    ∀ (l₁ l₂ : List α), List.Forall₂ R l₁ l₂ ↔
      (l₁.length = l₂.length ∧
        ∀ (i : Nat) (a b : α), l₁[i]? = some a → l₂[i]? = some b → R a b)
  | [], [] => by simp
  | [], b :: l₂ => by simp
  | a :: l₁, [] => by simp
  | a :: l₁, b :: l₂ => by
    rw [List.forall₂_cons, forall₂_iff_getElem? R l₁ l₂]
    constructor
    · rintro ⟨hab, hlen, hall⟩
      refine ⟨by simp [hlen], ?_⟩
      intro i x y hx hy
      cases i with
      | zero =>
        simp only [List.getElem?_cons_zero, Option.some.injEq] at hx hy
        subst hx hy
        exact hab
      | succ j =>
        simp only [List.getElem?_cons_succ] at hx hy
        exact hall j x y hx hy
    · rintro ⟨hlen, hall⟩
      refine ⟨hall 0 a b (by simp) (by simp), by simpa using hlen, ?_⟩
      intro i x y hx hy
      exact hall (i + 1) x y (by simpa using hx) (by simpa using hy)

theorem mem_data_iff (snap : Snapshot) (rs : referenceSet)
    (h : newReferenceSetFromReader snap = .ok rs) (topic : String) (payload : Payload) :
    (topic, payload) ∈ rs.data ↔ snapshotPayload snap topic = some payload := by
  obtain ⟨hnd, -, hidx⟩ := newReferenceSetFromReader_spec snap rs h
  rw [← hidx topic, mapIndex_iff_mem rs.data hnd]


theorem afterCalls_append_singleton (filter : String) :
    ∀ (l : List String) (r : referenceSet),
      r.afterCalls (l ++ [filter]) = ((r.afterCalls l).GetMessages filter).2 := by
  intro l
  induction l with
  | nil => intro r; rfl
  | cons f l ih => intro r; exact ih (r.GetMessages f).2

theorem snapshotValue_mem_keys (snap : Snapshot) (topic text : String)
    (h : snapshotValue snap topic = some text) : topic ∈ snap.map Prod.fst := by
  induction snap generalizing text with
  | nil => simp [snapshotValue] at h
  | cons e rest ih =>
    obtain ⟨k, v⟩ := e
    simp only [snapshotValue] at h
    cases hv : snapshotValue rest topic with
    | some later =>
      exact List.mem_cons_of_mem _ (ih later hv)
    | none =>
      rw [hv] at h
      by_cases hk : k = topic
      · simp [hk]
      · simp [hk] at h

theorem snapshotPayload_mem_keys (snap : Snapshot) (topic : String) (payload : Payload)
    (h : snapshotPayload snap topic = some payload) : topic ∈ snap.map Prod.fst := by
  unfold snapshotPayload at h
  cases hv : snapshotValue snap topic with
  | none => simp [hv] at h
  | some text => exact snapshotValue_mem_keys snap topic text hv

/-! ## The claims on the reference set -/

/-- The test of `ref_test.go` passes on the modelled reference set. -/
theorem TestReferenceSetCache_passes : TestReferenceSetCache = true := by
  decide

/-- C1 (exact lookup). For a reference set loaded from a snapshot that gives topic `T`
the payload `P` (the base64 decoding of its text), `T` holding neither `+` nor `#`,
`GetMessages(T)` returns the mapping with the single entry `T -> P`: its length is 1 and
reading it at `T` gives `P`. This holds after any sequence of earlier calls. -/
theorem GetMessages_exact_lookup (snap : Snapshot) (rs : referenceSet) (earlier : List String)
    (T : String) (P : Payload)
    (hload : newReferenceSetFromReader snap = .ok rs)
    (hT : snapshotPayload snap T = some P)
    (hw : hasWildcard T = false) :
    ((rs.afterCalls earlier).GetMessages T).1 = [(T, P)] ∧
    ((rs.afterCalls earlier).GetMessages T).1.length = 1 ∧
    mapIndex ((rs.afterCalls earlier).GetMessages T).1 T = some P := by
  obtain ⟨-, -, hidx⟩ := newReferenceSetFromReader_spec snap rs hload
  have hres : ((rs.afterCalls earlier).GetMessages T).1 = [(T, P)] := by
    rw [GetMessages_afterCalls snap rs hload earlier T]
    unfold resolve
    simp [hw, hidx T, hT]
  rw [hres]
  exact ⟨rfl, rfl, by simp [mapIndex]⟩

/-- C1 at the snapshot of `ref_test.go`: the first topic, after a wildcard call. -/
theorem GetMessages_exact_lookup_witness :
    newReferenceSetFromReader testSnapshot = .ok testReferenceSet ∧
    snapshotPayload testSnapshot "/this/is/a/lengthy/key/name" =
      some (bytesOf "correct_payload_0") ∧
    hasWildcard "/this/is/a/lengthy/key/name" = false ∧
    ((testReferenceSet.afterCalls ["/this/is/#"]).GetMessages
        "/this/is/a/lengthy/key/name").1 =
      [("/this/is/a/lengthy/key/name", bytesOf "correct_payload_0")] :=
  ⟨rfl, by decide, by decide,
    (GetMessages_exact_lookup testSnapshot testReferenceSet ["/this/is/#"]
      "/this/is/a/lengthy/key/name" (bytesOf "correct_payload_0")
      rfl (by decide) (by decide)).1⟩

/-- C2 (multi-level wildcard). For a loaded reference set and a filter whose levels are
`literals` followed by a final `#`, no level of `literals` being `+` or `#`,
`GetMessages(filter)` returns exactly the sub-mapping of the snapshot on the topics
whose levels begin with `literals`, whatever levels follow (none included): such a
topic is present with its own payload, no other topic is present, and no topic is
present twice. This holds after any sequence of earlier calls. -/
theorem GetMessages_multi_level_wildcard (snap : Snapshot) (rs : referenceSet)
    (earlier : List String) (filter : String) (literals : List (List Char))
    (hload : newReferenceSetFromReader snap = .ok rs)
    (hf : topicLevels filter = literals ++ [['#']])
    (hl : ∀ level ∈ literals, level ≠ ['+'] ∧ level ≠ ['#']) :
    KeysNodup ((rs.afterCalls earlier).GetMessages filter).1 ∧
    ∀ topic payload,
      (topic, payload) ∈ ((rs.afterCalls earlier).GetMessages filter).1 ↔
        (snapshotPayload snap topic = some payload ∧ literals <+: topicLevels topic) := by
  obtain ⟨hnd, -, -⟩ := newReferenceSetFromReader_spec snap rs hload
  rw [GetMessages_afterCalls snap rs hload earlier filter]
  refine ⟨KeysNodup_resolve rs.data hnd filter, fun topic payload => ?_⟩
  rw [mem_resolve rs.data hnd, mem_data_iff snap rs hload]
  unfold topicMatches
  rw [hf, matchLevels_trailing_hash literals hl]

/-- C2 at the snapshot of `ref_test.go`: `/this/is/#` holds the shorter topic. -/
theorem GetMessages_multi_level_wildcard_witness :
    newReferenceSetFromReader testSnapshot = .ok testReferenceSet ∧
    topicLevels "/this/is/#" = [[], "this".data, "is".data] ++ [['#']] ∧
    (∀ level ∈ [[], "this".data, "is".data], level ≠ ['+'] ∧ level ≠ ['#']) ∧
    ("/this/is/shorter", bytesOf "payload_1") ∈
      ((testReferenceSet.afterCalls []).GetMessages "/this/is/#").1 :=
  ⟨rfl, by decide, by decide,
    ((GetMessages_multi_level_wildcard testSnapshot testReferenceSet [] "/this/is/#"
      [[], "this".data, "is".data] rfl (by decide) (by decide)).2
      "/this/is/shorter" (bytesOf "payload_1")).mpr ⟨by decide, by decide⟩⟩

/-- C3 (single-level wildcard). For a loaded reference set and a filter without the
character `#`, a topic is in `GetMessages(filter)` with a payload if and only if the
snapshot gives the topic that payload, the filter and the topic split on `/` into the
same number of levels and, at every position, the filter level is `+` or equals the
topic level; so a `+` stands for exactly one level. This holds after any sequence of
earlier calls. -/
theorem GetMessages_single_level_wildcard (snap : Snapshot) (rs : referenceSet)
    (earlier : List String) (filter : String)
    (hload : newReferenceSetFromReader snap = .ok rs)
    (hf : '#' ∉ filter.data) :
    ∀ topic payload,
      (topic, payload) ∈ ((rs.afterCalls earlier).GetMessages filter).1 ↔
        (snapshotPayload snap topic = some payload ∧
          (topicLevels filter).length = (topicLevels topic).length ∧
          ∀ (i : Nat) (fl tl : List Char), (topicLevels filter)[i]? = some fl →
            (topicLevels topic)[i]? = some tl → fl = ['+'] ∨ fl = tl) := by
  obtain ⟨hnd, -, -⟩ := newReferenceSetFromReader_spec snap rs hload
  intro topic payload
  rw [GetMessages_afterCalls snap rs hload earlier filter, mem_resolve rs.data hnd,
    mem_data_iff snap rs hload]
  have hno : ∀ level ∈ topicLevels filter, level ≠ ['#'] := by
    rintro level hlv rfl
    exact hf (mem_of_mem_splitChars '/' filter.data _ hlv '#' (by simp))
  unfold topicMatches
  rw [matchLevels_no_hash _ hno, forall₂_iff_getElem?]

/-- C3 at the snapshot of `ref_test.go`: `/this/+/shorter` holds the four-level topic
and, having four levels, not the seven-level one. -/
theorem GetMessages_single_level_wildcard_witness :
    newReferenceSetFromReader testSnapshot = .ok testReferenceSet ∧
    '#' ∉ "/this/+/shorter".data ∧
    ("/this/is/shorter", bytesOf "payload_1") ∈
      ((testReferenceSet.afterCalls []).GetMessages "/this/+/shorter").1 ∧
    ("/this/is/a/lengthy/key/name", bytesOf "correct_payload_0") ∉
      ((testReferenceSet.afterCalls []).GetMessages "/this/+/shorter").1 :=
  ⟨rfl, by decide, by decide,
    fun h => absurd
      ((GetMessages_single_level_wildcard testSnapshot testReferenceSet []
        "/this/+/shorter" rfl (by decide)
        "/this/is/a/lengthy/key/name" (bytesOf "correct_payload_0")).mp h).2.1
      (by decide)⟩

/-- C4 (cache transparency). For a loaded reference set, a filter `f` and any sequence
of earlier `GetMessages` calls: the first call on the fresh set returns the uncached
resolution of `f` against the loaded data; the call after the earlier calls returns
that same mapping; a repeated call with `f` returns the mapping of the call before it
and leaves the reference set, cache included, as it was. -/
theorem GetMessages_cache_transparent (snap : Snapshot) (rs : referenceSet)
    (earlier : List String) (filter : String)
    (hload : newReferenceSetFromReader snap = .ok rs) :
    (rs.GetMessages filter).1 = resolve rs.data filter ∧
    ((rs.afterCalls earlier).GetMessages filter).1 = (rs.GetMessages filter).1 ∧
    (((rs.afterCalls earlier).GetMessages filter).2.GetMessages filter).1 =
      ((rs.afterCalls earlier).GetMessages filter).1 ∧
    (((rs.afterCalls earlier).GetMessages filter).2.GetMessages filter).2 =
      ((rs.afterCalls earlier).GetMessages filter).2 := by
  have h0 := GetMessages_afterCalls snap rs hload [] filter
  have h1 := GetMessages_afterCalls snap rs hload earlier filter
  have hc := GetMessages_cached (rs.afterCalls earlier) filter
  simp only [referenceSet.afterCalls] at h0
  refine ⟨h0, by rw [h1, h0], ?_, ?_⟩
  · generalize (rs.afterCalls earlier).GetMessages filter = out at hc ⊢
    simp [referenceSet.GetMessages, hc]
  · generalize (rs.afterCalls earlier).GetMessages filter = out at hc ⊢
    simp [referenceSet.GetMessages, hc]

/-- C4 at the snapshot of `ref_test.go`: `/this/is/#` after three other calls. -/
theorem GetMessages_cache_transparent_witness :
    newReferenceSetFromReader testSnapshot = .ok testReferenceSet ∧
    ((testReferenceSet.afterCalls
        ["/this/is/a/lengthy/key/name", "/this/is/#", "/not/existing/#"]).GetMessages
        "/this/is/#").1 = (testReferenceSet.GetMessages "/this/is/#").1 :=
  ⟨rfl,
    (GetMessages_cache_transparent testSnapshot testReferenceSet
      ["/this/is/a/lengthy/key/name", "/this/is/#", "/not/existing/#"] "/this/is/#"
      rfl).2.1⟩

/-- C5 (miss). For a loaded reference set and a filter, exact or wildcard, that matches
no topic of the snapshot, `GetMessages(filter)` returns the empty mapping, of length 0,
after any sequence of earlier calls and again on the repeated call. `GetMessages`
returns a mapping and nothing else, so there is no error to return. -/
theorem GetMessages_miss (snap : Snapshot) (rs : referenceSet) (earlier : List String)
    (filter : String)
    (hload : newReferenceSetFromReader snap = .ok rs)
    (hmiss : ∀ topic ∈ snap.map Prod.fst, topicMatches filter topic = false) :
    ((rs.afterCalls earlier).GetMessages filter).1 = [] ∧
    ((rs.afterCalls earlier).GetMessages filter).1.length = 0 ∧
    (((rs.afterCalls earlier).GetMessages filter).2.GetMessages filter).1 = [] := by
  obtain ⟨hnd, -, -⟩ := newReferenceSetFromReader_spec snap rs hload
  have hres : resolve rs.data filter = [] := by
    rw [List.eq_nil_iff_forall_not_mem]
    rintro ⟨topic, payload⟩ hmem
    rw [mem_resolve rs.data hnd, mem_data_iff snap rs hload] at hmem
    rw [hmiss topic (snapshotPayload_mem_keys snap topic payload hmem.1)] at hmem
    exact Bool.false_ne_true hmem.2
  have h1 := GetMessages_afterCalls snap rs hload earlier filter
  have h2 := GetMessages_afterCalls snap rs hload (earlier ++ [filter]) filter
  rw [afterCalls_append_singleton] at h2
  rw [h1, h2, hres]
  exact ⟨rfl, rfl, rfl⟩

/-- C5 at the snapshot of `ref_test.go`: `/not/existing/#` after an exact call. -/
theorem GetMessages_miss_witness :
    newReferenceSetFromReader testSnapshot = .ok testReferenceSet ∧
    (∀ topic ∈ testSnapshot.map Prod.fst, topicMatches "/not/existing/#" topic = false) ∧
    ((testReferenceSet.afterCalls ["/this/is/shorter"]).GetMessages
        "/not/existing/#").1 = [] :=
  ⟨rfl, by decide,
    (GetMessages_miss testSnapshot testReferenceSet ["/this/is/shorter"] "/not/existing/#"
      rfl (by decide)).1⟩

/-! ## The claims on the pre-run check and the run -/

/-- C6 (default port). For a non-empty broker address, after `PreRunE` the address is
the input with `:8883` appended when it has no port and MQTT TLS is enabled, the input
with `:1883` appended when it has no port and MQTT TLS is disabled, and the input
unchanged when it has a port; having a port is decided as containing the character
`:`. -/
theorem PreRunE_default_port (g : Flags) (h : g.brokerAddr ≠ "") :
    (stringsContains g.brokerAddr ":" = true ↔ ':' ∈ g.brokerAddr.data) ∧
    (stringsContains g.brokerAddr ":" = false → g.disableMqttTLS = false →
      (PreRunE g).2.brokerAddr = g.brokerAddr ++ ":8883") ∧
    (stringsContains g.brokerAddr ":" = false → g.disableMqttTLS = true →
      (PreRunE g).2.brokerAddr = g.brokerAddr ++ ":1883") ∧
    (stringsContains g.brokerAddr ":" = true → (PreRunE g).2.brokerAddr = g.brokerAddr) := by
  refine ⟨containsChars_singleton ':' g.brokerAddr.data, ?_, ?_, ?_⟩
  · intro hc ht
    rw [PreRunE_eq g h _ rfl]
    simp [hc, ht]
  · intro hc ht
    rw [PreRunE_eq g h _ rfl]
    simp [hc, ht]
  · intro hc
    rw [PreRunE_eq g h _ rfl]
    simp [hc]

/-- C6 at `sampleFlags`: no port, TLS enabled. -/
theorem PreRunE_default_port_witness :
    sampleFlags.brokerAddr ≠ "" ∧
    (PreRunE sampleFlags).2.brokerAddr = "iot.eclipse.org" ++ ":8883" :=
  ⟨by decide, (PreRunE_default_port sampleFlags (by decide)).2.1 (by decide) (by decide)⟩

/-- C9 (pre-run failures). `PreRunE` fails if and only if the broker address is empty or
the scenario file name is empty. With an empty broker address the error is "broker
cannot be empty", also when the scenario name is empty too, and the flag variables,
the broker address and the number of agents among them, are left as they were. With a
broker address and an empty scenario name the error is "scenario cannot be empty". -/
theorem PreRunE_fails_iff (g : Flags) :
    ((PreRunE g).1 ≠ none ↔ (g.brokerAddr = "" ∨ g.scenarioFile = "")) ∧
    (g.brokerAddr = "" →
      PreRunE g = (some (.errorsNew "broker cannot be empty"), g)) ∧
    (g.brokerAddr ≠ "" → g.scenarioFile = "" →
      (PreRunE g).1 = some (.errorsNew "scenario cannot be empty")) := by
  refine ⟨?_, ?_, ?_⟩
  · by_cases h : g.brokerAddr = ""
    · simp [PreRunE, h]
    · rw [PreRunE_eq g h _ rfl]
      by_cases hs : g.scenarioFile = "" <;> simp [h, hs]
  · intro h
    simp [PreRunE, h]
  · intro h hs
    rw [PreRunE_eq g h _ rfl]
    simp [hs]

/-- C9 with both names empty: the broker error, the flags untouched. -/
theorem PreRunE_fails_iff_witness :
    PreRunE { sampleFlags with brokerAddr := "", scenarioFile := "" } =
      (some (.errorsNew "broker cannot be empty"),
        { sampleFlags with brokerAddr := "", scenarioFile := "" }) :=
  (PreRunE_fails_iff { sampleFlags with brokerAddr := "", scenarioFile := "" }).2.1 rfl

section RunE

variable {σ ρ κ ω μ : Type}

/-- C7 (credential pool bound). When `RunE` reads the credentials file and the read
succeeds, `RunE` returns the error "cannot create %d agents with only %d tokens
provided" (with the agent count and the pool size) if and only if the number of agents
is strictly greater than the pool's `Size()`, and it returns no other `fmt.Errorf`
error. When it does, neither the funnel nor the agent controller is created. When the
number of agents is at most `Size()` the check passes and `creds` is the pool: every
controller that is created gets the pooled credentials, and one is created when `RunE`
returns `nil`. -/
theorem RunE_credential_pool_bound (w : Callees σ ρ κ ω μ) (g : Flags) (fcreds : κ)
    (hcall : Effect.newMqttCredentialsFromFile g.credentialsFile ∈ (RunE w g).2)
    (hl : w.newMqttCredentialsFromFile g.credentialsFile = .ok fcreds) :
    ((RunE w g).1 = some (.fmtErrorf "cannot create %d agents with only %d tokens provided"
        [g.nAgents, w.Size fcreds]) ↔ g.nAgents > w.Size fcreds) ∧
    (∀ format args, (RunE w g).1 = some (.fmtErrorf format args) → g.nAgents > w.Size fcreds) ∧
    (g.nAgents > w.Size fcreds →
      ∀ e ∈ (RunE w g).2, e.isFunnel = false ∧ e.isController = false) ∧
    (g.nAgents ≤ w.Size fcreds →
      (selectCredentials w g).1 = .ok (.fromFile fcreds) ∧
      (∀ a t n l s c f r sc, Effect.newAgentController a t n l s c f r sc ∈ (RunE w g).2 →
        c = .fromFile fcreds) ∧
      ((RunE w g).1 = none → ∃ a t n l s f r sc,
        Effect.newAgentController a t n l s (.fromFile fcreds) f r sc ∈ (RunE w g).2)) := by
  obtain ⟨⟨scenario, hs⟩, hr, hc⟩ := RunE_credentials_called w g hcall
  obtain ⟨hfmt, hgt⟩ := RunE_pool_error_iff w g scenario fcreds hs hr hc hl
  refine ⟨⟨fun h => hfmt _ _ h, hgt⟩, hfmt, ?_, ?_⟩
  · intro h e he
    have herr : (RunE w g).1 ≠ none := by rw [hgt h]; simp
    have := isStartup_not_later e (RunE_error_trace w g herr e he)
    exact ⟨this.1, this.2.1⟩
  · intro h
    have hsel := selectCredentials_of_file w g fcreds hc hl
    rw [if_neg (not_lt.mpr h)] at hsel
    have hsel1 : (selectCredentials w g).1 = .ok (.fromFile fcreds) := by rw [hsel]
    refine ⟨hsel1, ?_, ?_⟩
    · intro a t n l s c f r sc hmem
      by_cases hres : (RunE w g).1 = none
      · obtain ⟨t0, hd, tl, cr, rf, sn, hstart, hcr, htr⟩ := RunE_ok_trace w g hres
        rw [hsel1] at hcr
        cases hcr
        rw [htr] at hmem
        simp only [List.mem_append, List.mem_cons, List.mem_singleton] at hmem
        rcases hmem with ((hm | hm) | hm) | hm
        · have := hstart _ hm
          simp [Effect.isStartup] at this
        · rcases hm with hm | hm | hm | hm
          · cases hm
          · cases hm
          · cases hm; rfl
          · cases hm
        · split_ifs at hm <;> simp at hm
        · simp at hm
      · have := RunE_error_trace w g hres _ hmem
        simp [Effect.isStartup] at this
    · intro hres
      obtain ⟨t0, hd, tl, cr, rf, sn, hstart, hcr, htr⟩ := RunE_ok_trace w g hres
      rw [hsel1] at hcr
      cases hcr
      exact ⟨g.brokerAddr, tl, g.nAgents, g.agentLogFormat, g.sleep, hd, rf, sn,
        by rw [htr]; simp⟩

/-- C7 at four agents and a pool of three: the run fails with the pool error. -/
theorem RunE_credential_pool_bound_witness :
    Effect.newMqttCredentialsFromFile sampleRunFlags.credentialsFile ∈
      (RunE (sampleCallees 3) sampleRunFlags).2 ∧
    (sampleCallees 3).newMqttCredentialsFromFile sampleRunFlags.credentialsFile = .ok 3 ∧
    (RunE (sampleCallees 3) sampleRunFlags).1 =
      some (.fmtErrorf "cannot create %d agents with only %d tokens provided" [4, 3]) :=
  ⟨by decide, rfl,
    (RunE_credential_pool_bound (sampleCallees 3) sampleRunFlags 3 (by decide) rfl).1.mpr
      (by decide)⟩

/-- C8 (fatal start-up errors). If loading the scenario, loading the reference file,
loading the credentials file, the pool-size check, opening the key-log file or creating
the metrics exporter fails, `RunE` returns that error and the failing call is the last
call it makes. Whenever `RunE` returns an error, neither the funnel nor the agent
controller is created and `Control()` is not called. Conversely, when none of the six
fails, `RunE` returns `nil`, the controller is created once, and `Control()` is called
exactly once, as the last call. -/
theorem RunE_fatal_startup_errors (w : Callees σ ρ κ ω μ) (g : Flags) :
    (∀ msg, w.newScenarioFromFile g.scenarioFile = .error msg →
      RunE w g = (some (.returned msg), [.newScenarioFromFile g.scenarioFile])) ∧
    (∀ sc msg, w.newScenarioFromFile g.scenarioFile = .ok sc →
      g.referenceFile ≠ "" → w.newReferenceSetFromFile g.referenceFile = .error msg →
      (RunE w g).1 = some (.returned msg) ∧
      (RunE w g).2.getLast? = some (.newReferenceSetFromFile g.referenceFile)) ∧
    (∀ sc msg, w.newScenarioFromFile g.scenarioFile = .ok sc →
      (g.referenceFile ≠ "" → ∃ r, w.newReferenceSetFromFile g.referenceFile = .ok r) →
      g.credentialsFile ≠ "" → w.newMqttCredentialsFromFile g.credentialsFile = .error msg →
      (RunE w g).1 = some (.returned msg) ∧
      (RunE w g).2.getLast? = some (.newMqttCredentialsFromFile g.credentialsFile)) ∧
    (∀ sc fc, w.newScenarioFromFile g.scenarioFile = .ok sc →
      (g.referenceFile ≠ "" → ∃ r, w.newReferenceSetFromFile g.referenceFile = .ok r) →
      g.credentialsFile ≠ "" → w.newMqttCredentialsFromFile g.credentialsFile = .ok fc →
      g.nAgents > w.Size fc →
      (RunE w g).1 = some (.fmtErrorf "cannot create %d agents with only %d tokens provided"
        [g.nAgents, w.Size fc]) ∧
      (RunE w g).2.getLast? = some (.newMqttCredentialsFromFile g.credentialsFile)) ∧
    (∀ sc msg, w.newScenarioFromFile g.scenarioFile = .ok sc →
      (g.referenceFile ≠ "" → ∃ r, w.newReferenceSetFromFile g.referenceFile = .ok r) →
      (g.credentialsFile ≠ "" →
        ∃ fc, w.newMqttCredentialsFromFile g.credentialsFile = .ok fc ∧ g.nAgents ≤ w.Size fc) →
      g.nssKeyLogFile ≠ "" → w.osOpenFile g.nssKeyLogFile = .error msg →
      (RunE w g).1 = some (.returned msg) ∧
      (RunE w g).2.getLast? = some (.osOpenFile g.nssKeyLogFile)) ∧
    (∀ sc msg, w.newScenarioFromFile g.scenarioFile = .ok sc →
      (g.referenceFile ≠ "" → ∃ r, w.newReferenceSetFromFile g.referenceFile = .ok r) →
      (g.credentialsFile ≠ "" →
        ∃ fc, w.newMqttCredentialsFromFile g.credentialsFile = .ok fc ∧ g.nAgents ≤ w.Size fc) →
      (g.nssKeyLogFile ≠ "" → ∃ wr, w.osOpenFile g.nssKeyLogFile = .ok wr) →
      g.prometheusSrv ≠ "" → w.newPrometheusMetrics g.prometheusSrv = .error msg →
      (RunE w g).1 = some (.returned msg) ∧
      (RunE w g).2.getLast? = some (.newPrometheusMetrics g.prometheusSrv)) ∧
    ((RunE w g).1 ≠ none →
      ∀ e ∈ (RunE w g).2, e.isFunnel = false ∧ e.isController = false ∧ e.isControl = false) ∧
    (∀ sc, w.newScenarioFromFile g.scenarioFile = .ok sc →
      (g.referenceFile ≠ "" → ∃ r, w.newReferenceSetFromFile g.referenceFile = .ok r) →
      (g.credentialsFile ≠ "" →
        ∃ fc, w.newMqttCredentialsFromFile g.credentialsFile = .ok fc ∧ g.nAgents ≤ w.Size fc) →
      (g.nssKeyLogFile ≠ "" → ∃ wr, w.osOpenFile g.nssKeyLogFile = .ok wr) →
      (g.prometheusSrv ≠ "" → ∃ pm, w.newPrometheusMetrics g.prometheusSrv = .ok pm) →
      (RunE w g).1 = none ∧ (RunE w g).2.countP Effect.isControl = 1 ∧
      (RunE w g).2.countP Effect.isController = 1 ∧
      (RunE w g).2.getLast? = some .Control) := by
  refine ⟨?_, ?_, ?_, ?_, ?_, ?_, ?_, ?_⟩
  · intro msg hs
    simp [RunE, hs]
  · intro sc msg hs hne hr
    have h1 : loadReference w g =
        (.error (.returned msg), [.newReferenceSetFromFile g.referenceFile]) := by
      simp [loadReference, hne, hr]
    have hrun : RunE w g = (some (.returned msg),
        [.newScenarioFromFile g.scenarioFile] ++ [.newReferenceSetFromFile g.referenceFile]) := by
      simp [RunE, hs, h1]
    rw [hrun]
    exact ⟨rfl, getLast_snoc _ _⟩
  · intro sc msg hs hr hne hc
    obtain ⟨refSet, t1, h1⟩ := loadReference_ok_eq w g hr
    have h2 : selectCredentials w g =
        (.error (.returned msg), [.newMqttCredentialsFromFile g.credentialsFile]) := by
      simp [selectCredentials, hne, hc]
    have hrun : RunE w g = (some (.returned msg),
        [.newScenarioFromFile g.scenarioFile] ++ t1 ++
          [.newMqttCredentialsFromFile g.credentialsFile]) := by
      simp [RunE, hs, h1, h2]
    rw [hrun]
    exact ⟨rfl, getLast_snoc _ _⟩
  · intro sc fc hs hr hne hc hgt
    obtain ⟨refSet, t1, h1⟩ := loadReference_ok_eq w g hr
    have h2 := selectCredentials_of_file w g fc hne hc
    rw [if_pos hgt] at h2
    have hrun : RunE w g =
        (some (.fmtErrorf "cannot create %d agents with only %d tokens provided"
          [g.nAgents, w.Size fc]),
        [.newScenarioFromFile g.scenarioFile] ++ t1 ++
          [.newMqttCredentialsFromFile g.credentialsFile]) := by
      simp [RunE, hs, h1, h2]
    rw [hrun]
    exact ⟨rfl, getLast_snoc _ _⟩
  · intro sc msg hs hr hc hne hk
    obtain ⟨refSet, t1, h1⟩ := loadReference_ok_eq w g hr
    obtain ⟨creds, t2, h2⟩ := selectCredentials_ok_eq w g hc
    have h3 : sharedTlsConfig w g =
        (.error (.returned msg), [.osOpenFile g.nssKeyLogFile]) := by
      simp [sharedTlsConfig, hne, hk]
    have hrun : RunE w g = (some (.returned msg),
        [.newScenarioFromFile g.scenarioFile] ++ t1 ++ t2 ++
          [.osOpenFile g.nssKeyLogFile]) := by
      simp [RunE, hs, h1, h2, h3]
    rw [hrun]
    exact ⟨rfl, getLast_snoc _ _⟩
  · intro sc msg hs hr hc hk hne hp
    obtain ⟨refSet, t1, h1⟩ := loadReference_ok_eq w g hr
    obtain ⟨creds, t2, h2⟩ := selectCredentials_ok_eq w g hc
    obtain ⟨tlsCfg, t3, h3⟩ := sharedTlsConfig_ok_eq w g hk
    have h4 : collectMetricsHandlers w g =
        (.error (.returned msg), [.newPrometheusMetrics g.prometheusSrv]) := by
      simp [collectMetricsHandlers, hne, hp]
    have hrun : RunE w g = (some (.returned msg),
        [.newScenarioFromFile g.scenarioFile] ++ t1 ++ t2 ++ t3 ++
          [.newPrometheusMetrics g.prometheusSrv]) := by
      simp [RunE, hs, h1, h2, h3, h4]
    rw [hrun]
    exact ⟨rfl, getLast_snoc _ _⟩
  · intro herr e he
    exact isStartup_not_later e (RunE_error_trace w g herr e he)
  · intro sc hs hr hc hk hp
    obtain ⟨refSet, t1, h1⟩ := loadReference_ok_eq w g hr
    obtain ⟨creds, t2, h2⟩ := selectCredentials_ok_eq w g hc
    obtain ⟨tlsCfg, t3, h3⟩ := sharedTlsConfig_ok_eq w g hk
    obtain ⟨handlers, t4, h4⟩ := collectMetricsHandlers_ok_eq w g hp
    have hnone : (RunE w g).1 = none := by simp [RunE, hs, h1, h2, h3, h4]
    obtain ⟨t, hd, tl, cr, rf, sn, hstart, -, htr⟩ := RunE_ok_trace w g hnone
    refine ⟨hnone, ?_, ?_, ?_⟩
    · rw [htr]
      have h0 := countP_eq_zero_of_startup Effect.isControl
        (fun e he => (isStartup_not_later e he).2.2) t hstart
      by_cases hd : g.disableMqttTLS = true <;>
        simp [List.countP_append, List.countP_cons, h0, Effect.isControl, hd]
    · rw [htr]
      have h0 := countP_eq_zero_of_startup Effect.isController
        (fun e he => (isStartup_not_later e he).2.1) t hstart
      by_cases hd : g.disableMqttTLS = true <;>
        simp [List.countP_append, List.countP_cons, h0, Effect.isController, hd]
    · rw [htr]
      exact getLast_snoc _ _

/-- C8 at a run whose exporter cannot bind, and at a run in which every step succeeds. -/
theorem RunE_fatal_startup_errors_witness :
    (RunE (exporterFails 4) sampleRunFlags).1 =
      some (.returned "listen tcp :8080: bind: address already in use") ∧
    (RunE (sampleCallees 4) sampleRunFlags).1 = none ∧
    (RunE (sampleCallees 4) sampleRunFlags).2.countP Effect.isControl = 1 :=
  ⟨((RunE_fatal_startup_errors (exporterFails 4) sampleRunFlags).2.2.2.2.2.1 ()
      "listen tcp :8080: bind: address already in use" rfl (fun _ => ⟨(), rfl⟩)
      (fun _ => ⟨4, rfl, by decide⟩) (fun _ => ⟨(), rfl⟩) (by decide) rfl).1,
    ((RunE_fatal_startup_errors (sampleCallees 4) sampleRunFlags).2.2.2.2.2.2.2 () rfl
      (fun _ => ⟨(), rfl⟩) (fun _ => ⟨4, rfl, by decide⟩) (fun _ => ⟨(), rfl⟩)
      (fun _ => ⟨(), rfl⟩)).1,
    ((RunE_fatal_startup_errors (sampleCallees 4) sampleRunFlags).2.2.2.2.2.2.2 () rfl
      (fun _ => ⟨(), rfl⟩) (fun _ => ⟨4, rfl, by decide⟩) (fun _ => ⟨(), rfl⟩)
      (fun _ => ⟨(), rfl⟩)).2.1⟩

/-- C10 (agent-count cap). For a non-empty broker address and a requested agent count
`n`, after `PreRunE` the agent count is `min n 4` when the broker address contains
"iot.eclipse.org" and `n` otherwise. No condition is put on the scenario file name:
the cap is applied also when `PreRunE` then fails with "scenario cannot be empty". The
cap is applied before the pool-size check of the run: when a scenario file is named
and loads, the reference file is absent or loads, and a credentials file is given and
loads, the run that cobra starts (`PreRunE`, then `RunE`) returns the pool error with
the capped count, `min n 4` for the public test broker and `n` otherwise, exactly when
that capped count exceeds the pool size. -/
theorem PreRunE_agent_cap (w : Callees σ ρ κ ω μ) (g : Flags) (h : g.brokerAddr ≠ "") :
    (stringsContains g.brokerAddr "iot.eclipse.org" = true →
      (PreRunE g).2.nAgents = min g.nAgents 4) ∧
    (stringsContains g.brokerAddr "iot.eclipse.org" = false →
      (PreRunE g).2.nAgents = g.nAgents) ∧
    (g.scenarioFile = "" → (PreRunE g).1 = some (.errorsNew "scenario cannot be empty")) ∧
    (∀ (scenario : σ) (fcreds : κ), g.scenarioFile ≠ "" →
      w.newScenarioFromFile g.scenarioFile = .ok scenario →
      (g.referenceFile ≠ "" → ∃ r, w.newReferenceSetFromFile g.referenceFile = .ok r) →
      g.credentialsFile ≠ "" →
      w.newMqttCredentialsFromFile g.credentialsFile = .ok fcreds →
      (stringsContains g.brokerAddr "iot.eclipse.org" = true →
        ((rootCmdExecute w g).1 =
            some (.fmtErrorf "cannot create %d agents with only %d tokens provided"
              [min g.nAgents 4, w.Size fcreds]) ↔
          min g.nAgents 4 > w.Size fcreds)) ∧
      (stringsContains g.brokerAddr "iot.eclipse.org" = false →
        ((rootCmdExecute w g).1 =
            some (.fmtErrorf "cannot create %d agents with only %d tokens provided"
              [g.nAgents, w.Size fcreds]) ↔
          g.nAgents > w.Size fcreds))) := by
  have heq := PreRunE_eq g h _ rfl
  have hcont := PreRunE_brokerAddr_contains g h
  have hn : (PreRunE g).2.nAgents =
      (if stringsContains g.brokerAddr "iot.eclipse.org" then min g.nAgents 4
       else g.nAgents) := by
    rw [heq] at hcont ⊢
    simp only at hcont ⊢
    rw [hcont]
    by_cases hi : stringsContains g.brokerAddr "iot.eclipse.org" = true
    · by_cases h4 : g.nAgents > 4
      · simp [hi, h4, min_eq_right (le_of_lt h4)]
      · simp [hi, h4, min_eq_left (not_lt.mp h4)]
    · simp [hi]
  refine ⟨?_, ?_, ?_, ?_⟩
  · intro hi
    rw [hn, if_pos hi]
  · intro hi
    rw [hn]
    simp [hi]
  · intro hs
    rw [heq]
    simp [hs]
  · intro scenario fcreds hsf hs hr hc hl
    have hexec : rootCmdExecute w g = RunE w (PreRunE g).2 := by
      unfold rootCmdExecute
      rw [heq]
      simp [hsf]
    have hg1 : (PreRunE g).2.scenarioFile = g.scenarioFile := by rw [heq]
    have hg2 : (PreRunE g).2.referenceFile = g.referenceFile := by rw [heq]
    have hg3 : (PreRunE g).2.credentialsFile = g.credentialsFile := by rw [heq]
    obtain ⟨h1, h2⟩ := RunE_pool_error_iff w (PreRunE g).2 scenario fcreds
      (by rw [hg1]; exact hs) (by rw [hg2]; exact hr) (by rw [hg3]; exact hc)
      (by rw [hg3]; exact hl)
    have key : (rootCmdExecute w g).1 =
          some (.fmtErrorf "cannot create %d agents with only %d tokens provided"
            [(PreRunE g).2.nAgents, w.Size fcreds]) ↔
        (PreRunE g).2.nAgents > w.Size fcreds := by
      rw [hexec]
      exact ⟨fun e => h1 _ _ e, h2⟩
    refine ⟨fun hi => ?_, fun hi => ?_⟩
    · rw [hn, if_pos hi] at key
      exact key
    · have hni : ¬ stringsContains g.brokerAddr "iot.eclipse.org" = true := by
        rw [hi]
        exact Bool.false_ne_true
      rw [hn, if_neg hni] at key
      exact key

/-- C10 at `sampleFlags`: ten agents asked of the public test broker become four; with
a pool of three the run fails with the pool error for four agents, not ten, and with a
pool of four it does not return the pool error. -/
theorem PreRunE_agent_cap_witness :
    sampleFlags.brokerAddr ≠ "" ∧
    (PreRunE sampleFlags).2.nAgents = 4 ∧
    (rootCmdExecute (sampleCallees 3) sampleFlags).1 =
      some (.fmtErrorf "cannot create %d agents with only %d tokens provided" [4, 3]) ∧
    (rootCmdExecute (sampleCallees 4) sampleFlags).1 ≠
      some (.fmtErrorf "cannot create %d agents with only %d tokens provided" [4, 4]) :=
  ⟨by decide,
    (PreRunE_agent_cap (sampleCallees 3) sampleFlags (by decide)).1 (by decide),
    (((PreRunE_agent_cap (sampleCallees 3) sampleFlags (by decide)).2.2.2 () 3 (by decide)
      rfl (fun _ => ⟨(), rfl⟩) (by decide) rfl).1 (by decide)).mpr (by decide),
    fun e => absurd
      ((((PreRunE_agent_cap (sampleCallees 4) sampleFlags (by decide)).2.2.2 () 4 (by decide)
        rfl (fun _ => ⟨(), rfl⟩) (by decide) rfl).1 (by decide)).mp e) (by decide)⟩

end RunE

end MqHammer
